import Mathlib

/-!
# Verification of the FreeBSD zvol driver (module/os/freebsd/zfs/zvol_os.c)

This file gives a shallow embedding of the open/close reference-counting state
machine, the strategy I/O engine with its chunked transfer loops, the
character-device read/write/ioctl paths, and the removal wait of the zvol
driver, and proves the specified properties about them.

Conventions of the embedding:
* machine integers become `Nat` (unsigned quantities: sizes, offsets inside the
  strategy path, which uses `uint64_t`) or `Int` (signed quantities: `off_t`
  offsets of the character-device paths, and the open count, so that
  non-negativity is a real statement);
* errno results become `Option Errno` (`none` = success, mirroring `error = 0`);
* the external collaborators (DMU object store, ZIL) are oracles: a function
  from the chunk index to the outcome of the store call for that chunk;
* lock acquisition/release and the suspend-lock dance are concurrency and are
  not modelled; the functions model the state transition performed under the
  per-volume state lock, which is the level at which the claims speak.
-/

set_option maxHeartbeats 1000000
set_option linter.unusedVariables false

namespace ZvolOs

/-- Errno values that appear in the zvol paths (lowercase to stay clear of
Lean's reserved suffixes).  `eio` is `EIO`, `ecksum` is `ECKSUM`, etc. -/
inductive Errno
  | enxio
  | eopnotsupp
  | erofs
  | ebusy
  | eio
  | einval
  | ecksum
  | eagain
deriving DecidableEq, Repr

/-- `if (error == ECKSUM) error = SET_ERROR(EIO);` — the checksum-to-IO-error
remap applied when a chunk of the strategy or cdev-read loop fails. -/
def remap_cksum (e : Errno) : Errno :=
  if e = Errno.ecksum then Errno.eio else e

/-- volmode of a zvol: GEOM provider or plain character device. -/
inductive Volmode
  | geom
  | dev
deriving DecidableEq, Repr

/-- The per-volume state the claims are about: `zv_open_count`, the `ZVOL_EXCL`
/ `ZVOL_RDONLY` / `ZVOL_REMOVING` flags, `zso_dying`, the objset handle
(`none` while the volume is closed), volsize, volmode, and the
`os_sync == ZFS_SYNC_ALWAYS` policy bit read by the I/O paths. -/
structure ZvolState where
  zv_open_count : Int
  zv_excl : Bool
  zv_rdonly : Bool
  zv_removing : Bool
  zso_dying : Bool
  zv_objset : Option Nat
  zv_volsize : Nat
  zv_volmode : Volmode
  zv_sync_always : Bool
deriving DecidableEq, Repr

/-- Open flags passed to the open entry points: `FWRITE` and `O_EXCL`. -/
structure OpenFlags where
  fwrite : Bool
  o_excl : Bool
deriving DecidableEq, Repr

/-- Modelled from the spec: `zvol_first_open` (common code `zvol.c`, not under
`src/`) performs first-open setup — "owning the backing object store"; on
success the object-store handle becomes non-null, on failure it stays null and
the errno is returned. -/
def zvol_first_open (zv : ZvolState) (fo : Except Errno Nat) : ZvolState × Option Errno :=
  match fo with
  | Except.error e => (zv, some e)
  | Except.ok h => ({ zv with zv_objset := some h }, none)

/-- Modelled from the spec: `zvol_last_close` (common code `zvol.c`, not under
`src/`) performs last-close teardown — it "disowns the backing store, drops
references", so the object-store handle becomes null. -/
def zvol_last_close (zv : ZvolState) : ZvolState :=
  { zv with zv_objset := none }

/-- The block of checks both open paths share after first-open setup: the
read-only / format check (`EROFS`), the `ZVOL_EXCL` check (`EBUSY`), the
`O_EXCL` request (`EBUSY` unless the open count is zero, else the flag is
set), then `zv_open_count += count`.  `deny_write` is
`zv_rdonly || incompatible-format` on the GEOM path and `zv_rdonly` on the
cdev path. -/
def zvol_open_checks (zv : ZvolState) (deny_write : Bool) (flag : OpenFlags)
    (count : Nat) : ZvolState × Option Errno :=
  if flag.fwrite && deny_write then (zv, some Errno.erofs)
  else if zv.zv_excl then (zv, some Errno.ebusy)
  else if flag.o_excl then
    (if zv.zv_open_count ≠ 0 then (zv, some Errno.ebusy)
     else ({ zv with zv_excl := true,
                     zv_open_count := zv.zv_open_count + (count : Int) }, none))
  else ({ zv with zv_open_count := zv.zv_open_count + (count : Int) }, none)

/-- The `out_opened` epilogue of both open paths: if the open count is (still)
zero, run last-close teardown (this releases the handle acquired by a
first-open whose follow-up checks failed). -/
def zvol_open_out (p : ZvolState × Option Errno) : ZvolState × Option Errno :=
  (if p.1.zv_open_count = 0 then zvol_last_close p.1 else p.1, p.2)

/-- `zvol_geom_open(pp, flag, count)`: the GEOM open path.  `zv?` is
`pp->private` (`none` models the NULL provider-private seen after free),
`incompat` models `dmu_objset_incompatible_encryption_version(zv->zv_objset)`,
`fo` is the outcome of `zvol_first_open`.  Returns the new state and the errno.
The suspend/namespace lock dance (a retry loop that changes no state) is not
modelled. -/
def zvol_geom_open (zv? : Option ZvolState) (flag : OpenFlags) (count : Nat)
    (fo : Except Errno Nat) (incompat : Bool) : Option ZvolState × Option Errno :=
  match zv? with
  | none => (none, some Errno.enxio)
  | some zv0 =>
    if zv0.zso_dying || zv0.zv_removing then (some zv0, some Errno.enxio)
    else
      match (if zv0.zv_open_count = 0 then zvol_first_open zv0 fo else (zv0, none)) with
      | (zv, some e) => (some zv, some e)
      | (zv, none) =>
        let q := zvol_open_out (zvol_open_checks zv (zv.zv_rdonly || incompat) flag count)
        (some q.1, q.2)

/-- `zvol_cdev_open(dev, flags, fmt, td)`: the character-device open path.
Same shape as the GEOM path except: only `zso_dying` is checked (not
`ZVOL_REMOVING`), the read-only check does not consult the encryption-version
compatibility, and the count always increments by one. -/
def zvol_cdev_open (zv? : Option ZvolState) (flags : OpenFlags)
    (fo : Except Errno Nat) : Option ZvolState × Option Errno :=
  match zv? with
  | none => (none, some Errno.enxio)
  | some zv0 =>
    if zv0.zso_dying then (some zv0, some Errno.enxio)
    else
      match (if zv0.zv_open_count = 0 then zvol_first_open zv0 fo else (zv0, none)) with
      | (zv, some e) => (some zv, some e)
      | (zv, none) =>
        let q := zvol_open_out (zvol_open_checks zv zv.zv_rdonly flags 1)
        (some q.1, q.2)

/-- `zvol_geom_close(pp, flag, count)`: clears `ZVOL_EXCL` if held, subtracts
`count` from the open count, and on reaching zero runs last-close teardown. -/
def zvol_geom_close (zv? : Option ZvolState) (count : Nat) :
    Option ZvolState × Option Errno :=
  match zv? with
  | none => (none, some Errno.enxio)
  | some zv0 =>
    let zv1 := if zv0.zv_excl then { zv0 with zv_excl := false } else zv0
    let zv2 := { zv1 with zv_open_count := zv1.zv_open_count - (count : Int) }
    let zv3 := if zv2.zv_open_count = 0 then zvol_last_close zv2 else zv2
    (some zv3, none)

/-- `zvol_cdev_close(dev, flags, fmt, td)`: the character-device close —
`count` is always one. -/
def zvol_cdev_close (zv? : Option ZvolState) : Option ZvolState × Option Errno :=
  match zv? with
  | none => (none, some Errno.enxio)
  | some zv0 =>
    let zv1 := if zv0.zv_excl then { zv0 with zv_excl := false } else zv0
    let zv2 := { zv1 with zv_open_count := zv1.zv_open_count - 1 }
    let zv3 := if zv2.zv_open_count = 0 then zvol_last_close zv2 else zv2
    (some zv3, none)

/-- `zvol_wait_close(zv)`: for a GEOM-mode volume, sets `zso_dying` and, if the
open count is non-zero, sleeps once with the bounded timeout `10*hz` before
returning; for any other volmode it returns immediately without touching the
state.  The second component is the timeout of the (single) sleep performed,
`none` when no sleep happens.  The function always returns, so teardown
proceeds unconditionally afterwards. -/
def zvol_wait_close (zv : ZvolState) (hz : Nat) : ZvolState × Option Nat :=
  if zv.zv_volmode ≠ Volmode.geom then (zv, none)
  else
    let z := { zv with zso_dying := true }
    if z.zv_open_count ≠ 0 then (z, some (10 * hz)) else (z, none)

/-!
## The I/O engine

`zvol_strategy_impl`, the cdev read/write paths and the `DIOCGDELETE` ioctl.
The DMU store is an oracle giving the outcome of each chunk operation.
-/

/-- Modelled from the spec: `DMU_MAX_ACCESS` comes from `sys/dmu.h`, which is
not under `src/`; it is the "fixed maximum per-transaction size" the spec
speaks of (64 MB in the headers).  The proved properties do not depend on the
numeric value. -/
def DMU_MAX_ACCESS : Nat := 64 * 1024 * 1024

/-- `int zvol_maxphys = DMU_MAX_ACCESS / 2;` — zvol maximum transfer in one
DMU tx, the chunk cap of the strategy path. -/
def zvol_maxphys : Nat := DMU_MAX_ACCESS / 2

/-- `DEV_BSIZE` — the 512-byte sector size used by the `DIOCGDELETE`
alignment checks. -/
def DEV_BSIZE : Nat := 512

/-- Modelled from the spec: `dmu_free_long_range` (object-store collaborator,
not under `src/`) frees a byte range of the zvol object; per the spec the
"unmap silently clips at the end-of-volume boundary rather than failing", so
the range actually freed is `[off, off+len)` clipped at `volsize`. -/
def dmu_free_long_range (volsize off len : Nat) : Nat × Nat :=
  (off, min len (volsize - off))

/-- One chunk of a strategy/cdev transfer loop: its offset, its size, and
whether it completed (for a write: the transaction committed; `c_ok = false`
means the chunk failed — for a write, its transaction was aborted). -/
structure ChunkRec where
  c_off : Nat
  c_size : Nat
  c_ok : Bool
deriving DecidableEq, Repr

/-- Result of a transfer loop: final offset, final residual, errno, chunks. -/
structure LoopRes where
  l_off : Nat
  l_resid : Nat
  l_err : Option Errno
  l_chunks : List ChunkRec
deriving DecidableEq, Repr

/-- Sum of the sizes of the committed chunks — the bytes actually
transferred by a loop. -/
def sumCommitted (l : List ChunkRec) : Nat :=
  ((l.filter fun c => c.c_ok).map fun c => c.c_size).sum

/-- The body of the chunk loop of `zvol_strategy_impl`, structurally
recursive on a fuel argument so that concrete runs evaluate; `fuel = resid`
always suffices because every iteration consumes at least one byte of the
residual (see `strategy_loop_eq` for the loop's own recurrence).
`oracle i` is the outcome of the store operation for the `i`-th chunk
(`dmu_read_by_dnode` for a read; `dmu_tx_assign` for a write — on failure the
tx is aborted, on success `dmu_write_by_dnode`/`zvol_log_write` happen and the
tx commits).  On a chunk failure the checksum remap runs and the loop breaks
with `off`/`resid` not advanced. -/
def strategy_loop_go (oracle : Nat → Option Errno) (volsize : Nat) :
    Nat → Nat → Nat → Nat → LoopRes
  | 0, off, resid, _ => ⟨off, resid, none, []⟩
  | fuel + 1, off, resid, idx =>
    if resid ≠ 0 ∧ off < volsize then
      let size := min resid zvol_maxphys
      match oracle idx with
      | some e => ⟨off, resid, some (remap_cksum e), [⟨off, size, false⟩]⟩
      | none =>
        let r := strategy_loop_go oracle volsize fuel (off + size) (resid - size) (idx + 1)
        ⟨r.l_off, r.l_resid, r.l_err, ⟨off, size, true⟩ :: r.l_chunks⟩
    else ⟨off, resid, none, []⟩

/-- The chunk loop of `zvol_strategy_impl`:
`while (resid != 0 && off < volsize) { size = MIN(resid, zvol_maxphys); ... }`. -/
def strategy_loop (oracle : Nat → Option Errno) (volsize off resid idx : Nat) : LoopRes :=
  strategy_loop_go oracle volsize resid off resid idx

/-- The `bio_cmd` values handled by the strategy switch. -/
inductive BioCmd
  | bread
  | bwrite
  | bflush
  | bdelete
  | bother
deriving DecidableEq, Repr

/-- A `struct bio` as far as the strategy path reads it. -/
structure BioReq where
  bio_cmd : BioCmd
  bio_offset : Nat
  bio_length : Nat
deriving DecidableEq, Repr

/-- Result of `zvol_strategy_impl` as delivered upstream: the errno, the
`bio_completed` count, the chunk trace of the transfer loop, the range
actually freed for a `BIO_DELETE`, whether the delete transaction was aborted,
and whether `zil_commit` ran. -/
structure StratRes where
  s_err : Option Errno
  bio_completed : Nat
  s_chunks : List ChunkRec
  s_freed : Option (Nat × Nat)
  s_delete_tx_aborted : Bool
  s_zil_committed : Bool
deriving DecidableEq, Repr

/-- `zvol_strategy_impl(zvr)`: validation (`ENXIO` on NULL/removing volume,
`EOPNOTSUPP` on unknown command, `EROFS` for mutating commands on a read-only
volume, `EIO` when `resid > 0 && off >= volsize`), then for `BIO_DELETE` a
single transaction (`deleteTx` = outcome of `dmu_tx_assign`, `freeErr` =
outcome of `dmu_free_long_range`) and for read/write the chunked loop; then
`bio_completed = bio_length - resid`, the `EINVAL` end-of-volume check, and
`zil_commit` when the sync policy demands it (`BIO_FLUSH` jumps straight to
the commit). -/
def zvol_strategy_impl (zv? : Option ZvolState) (bp : BioReq)
    (oracle : Nat → Option Errno) (deleteTx : Option Errno)
    (freeErr : Option Errno) : StratRes :=
  match zv? with
  | none => ⟨some Errno.enxio, 0, [], none, false, false⟩
  | some zv =>
    if zv.zv_removing then ⟨some Errno.enxio, 0, [], none, false, false⟩
    else if bp.bio_cmd = BioCmd.bother then ⟨some Errno.eopnotsupp, 0, [], none, false, false⟩
    else if bp.bio_cmd ≠ BioCmd.bread && zv.zv_rdonly then
      ⟨some Errno.erofs, 0, [], none, false, false⟩
    else if bp.bio_cmd = BioCmd.bflush then ⟨none, 0, [], none, false, true⟩
    else
      let off := bp.bio_offset
      let volsize := zv.zv_volsize
      let resid := bp.bio_length
      if resid > 0 ∧ off ≥ volsize then ⟨some Errno.eio, 0, [], none, false, false⟩
      else
        let commit := bp.bio_cmd ≠ BioCmd.bread && zv.zv_sync_always
        if bp.bio_cmd = BioCmd.bdelete then
          match deleteTx with
          | some e =>
            -- tx aborted; resid unchanged; completed = length - resid = 0
            let completed := bp.bio_length - resid
            let err := if completed < bp.bio_length ∧ off > volsize
                       then some Errno.einval else some e
            ⟨err, completed, [], none, true, commit⟩
          | none =>
            -- zvol_log_truncate + commit tx + dmu_free_long_range; resid = 0
            let freed := if freeErr = none
                         then some (dmu_free_long_range volsize off resid) else none
            ⟨freeErr, bp.bio_length, [], freed, false, commit⟩
        else
          let L := strategy_loop oracle volsize off resid 0
          let completed := bp.bio_length - L.l_resid
          let err := if completed < bp.bio_length ∧ L.l_off > volsize
                     then some Errno.einval else L.l_err
          ⟨err, completed, L.l_chunks, none, false, commit⟩

/-- A `struct uio` as far as the cdev read/write paths read it: the (signed)
offset and the residual count. -/
structure Uio where
  uio_offset : Int
  uio_resid : Nat
deriving DecidableEq, Repr

/-- Fuel-structured body of the chunk loop of `zvol_cdev_read` (fuel = resid
suffices; see `zvol_cdev_read_loop_eq`). -/
def zvol_cdev_read_loop_go (oracle : Nat → Option Errno) (volsize : Nat) :
    Nat → Nat → Nat → Nat → LoopRes
  | 0, off, resid, _ => ⟨off, resid, none, []⟩
  | fuel + 1, off, resid, idx =>
    if 0 < resid ∧ off < volsize then
      let bytes0 := min resid (DMU_MAX_ACCESS >>> 1)
      let bytes := if bytes0 > volsize - off then volsize - off else bytes0
      match oracle idx with
      | some e => ⟨off, resid, some (remap_cksum e), [⟨off, bytes, false⟩]⟩
      | none =>
        let r := zvol_cdev_read_loop_go oracle volsize fuel (off + bytes)
          (resid - bytes) (idx + 1)
        ⟨r.l_off, r.l_resid, r.l_err, ⟨off, bytes, true⟩ :: r.l_chunks⟩
    else ⟨off, resid, none, []⟩

/-- The chunk loop of `zvol_cdev_read`:
`while resid > 0 && offset < volsize { bytes = MIN(resid, DMU_MAX_ACCESS >> 1);
if bytes > volsize - offset: bytes = volsize - offset; ... }` with the checksum
remap on a failed `dmu_read_uio_dnode`. -/
def zvol_cdev_read_loop (oracle : Nat → Option Errno) (volsize off resid idx : Nat) :
    LoopRes :=
  zvol_cdev_read_loop_go oracle volsize resid off resid idx

/-- `zvol_cdev_read(dev, uio, ioflag)`: rejects with `EIO` when
`resid > 0 && (offset < 0 || offset > volsize)` ("`uio_loffset == volsize`
isn't an error as it's required for EOF processing"), then runs the chunked
read loop.  Returns the errno, `nread = start_resid - resid`, and the chunk
trace. -/
def zvol_cdev_read (zv : ZvolState) (uio : Uio) (oracle : Nat → Option Errno) :
    Option Errno × Nat × List ChunkRec :=
  let volsize := zv.zv_volsize
  if 0 < uio.uio_resid ∧ (uio.uio_offset < 0 ∨ uio.uio_offset > (volsize : Int)) then
    (some Errno.eio, 0, [])
  else
    let L := zvol_cdev_read_loop oracle volsize uio.uio_offset.toNat uio.uio_resid 0
    (L.l_err, uio.uio_resid - L.l_resid, L.l_chunks)

/-- Outcome of one chunk of the cdev write loop: `dmu_tx_assign` failed (tx
aborted), `dmu_write_uio_dnode` failed (tx still committed, nothing logged),
or both succeeded. -/
inductive WStep
  | ok
  | assignFail (e : Errno)
  | writeFail (e : Errno)
deriving DecidableEq, Repr

/-- Outcome recorded for one chunk of the cdev write loop. -/
inductive WOut
  | committed
  | abortedTx
  | committedNoData
deriving DecidableEq, Repr

/-- One chunk of the cdev write loop. -/
structure WChunkRec where
  w_off : Nat
  w_bytes : Nat
  w_out : WOut
deriving DecidableEq, Repr

/-- Result of the cdev write loop. -/
structure WLoopRes where
  wl_off : Nat
  wl_resid : Nat
  wl_err : Option Errno
  wl_chunks : List WChunkRec
deriving DecidableEq, Repr

/-- Fuel-structured body of the chunk loop of `zvol_cdev_write` (fuel = resid
suffices; see `zvol_cdev_write_loop_eq`). -/
def zvol_cdev_write_loop_go (oracle : Nat → WStep) (volsize : Nat) :
    Nat → Nat → Nat → Nat → WLoopRes
  | 0, off, resid, _ => ⟨off, resid, none, []⟩
  | fuel + 1, off, resid, idx =>
    if 0 < resid ∧ off < volsize then
      let bytes0 := min resid (DMU_MAX_ACCESS >>> 1)
      let bytes := if bytes0 > volsize - off then volsize - off else bytes0
      match oracle idx with
      | WStep.assignFail e => ⟨off, resid, some e, [⟨off, bytes, WOut.abortedTx⟩]⟩
      | WStep.writeFail e => ⟨off, resid, some e, [⟨off, bytes, WOut.committedNoData⟩]⟩
      | WStep.ok =>
        let r := zvol_cdev_write_loop_go oracle volsize fuel (off + bytes)
          (resid - bytes) (idx + 1)
        ⟨r.wl_off, r.wl_resid, r.wl_err, ⟨off, bytes, WOut.committed⟩ :: r.wl_chunks⟩
    else ⟨off, resid, none, []⟩

/-- The chunk loop of `zvol_cdev_write`: same cap and end-of-volume clip as the
read loop; each chunk opens a tx, and note that there is no checksum remap on
this path and that a failed `dmu_write_uio_dnode` still commits its tx. -/
def zvol_cdev_write_loop (oracle : Nat → WStep) (volsize off resid idx : Nat) :
    WLoopRes :=
  zvol_cdev_write_loop_go oracle volsize resid off resid idx

/-- `zvol_cdev_write(dev, uio, ioflag)`: the same `EIO` bounds check as the
read path (offset `== volsize` accepted), `commit = (ioflag & IO_SYNC) ||
sync-always`, the chunked write loop, and a final `zil_commit` when `commit`.
Returns the errno, `nwritten`, the chunk trace, and whether the ZIL was
committed. -/
def zvol_cdev_write (zv : ZvolState) (uio : Uio) (io_sync : Bool)
    (oracle : Nat → WStep) : Option Errno × Nat × List WChunkRec × Bool :=
  let volsize := zv.zv_volsize
  if 0 < uio.uio_resid ∧ (uio.uio_offset < 0 ∨ uio.uio_offset > (volsize : Int)) then
    (some Errno.eio, 0, [], false)
  else
    let commit := io_sync || zv.zv_sync_always
    let L := zvol_cdev_write_loop oracle volsize uio.uio_offset.toNat uio.uio_resid 0
    (L.wl_err, uio.uio_resid - L.wl_resid, L.wl_chunks, commit)

/-- Result of the `DIOCGDELETE` ioctl: errno, range actually freed, whether
`zil_commit` ran. -/
structure IoctlDelRes where
  d_err : Option Errno
  d_freed : Option (Nat × Nat)
  d_zil_committed : Bool
deriving DecidableEq, Repr

/-- The `DIOCGDELETE` branch of `zvol_cdev_ioctl`: a no-op when unmap is
disabled; `EINVAL` unless offset and length are sector-aligned,
`0 <= offset < volsize` and `length > 0` (no check of `offset + length`
against `volsize` — the free clips); then one transaction
(`zvol_log_truncate`, commit) and `dmu_free_long_range`, with a `zil_commit`
when the volume syncs always (`sync` stays false when the tx failed to
assign). -/
def zvol_cdev_ioctl_delete (zv : ZvolState) (unmap_enabled : Bool)
    (offset length : Int) (txErr : Option Errno) (freeErr : Option Errno) :
    IoctlDelRes :=
  if !unmap_enabled then ⟨none, none, false⟩
  else if offset % (DEV_BSIZE : Int) ≠ 0 ∨ length % (DEV_BSIZE : Int) ≠ 0 ∨
          offset < 0 ∨ offset ≥ (zv.zv_volsize : Int) ∨ length ≤ 0 then
    ⟨some Errno.einval, none, false⟩
  else
    match txErr with
    | some e => ⟨some e, none, false⟩
    | none =>
      let sync := zv.zv_sync_always
      match freeErr with
      | some e => ⟨some e, none, sync⟩
      | none =>
        ⟨none, some (dmu_free_long_range zv.zv_volsize offset.toNat length.toNat), sync⟩

/-!
## Traces of open/close events

The open-count/exclusivity invariants are statements over every interleaving
of the four open/close entry points, starting from a freshly created volume
(`zvol_alloc` leaves the open count at zero, no flags, no objset).
-/

/-- An open or close event on a volume.  GEOM events carry the `count`
computed by `zvol_geom_access` from the access deltas. -/
inductive ZEvent
  | gopen (flag : OpenFlags) (count : Nat) (fo : Except Errno Nat) (incompat : Bool)
  | gclose (count : Nat)
  | copen (flags : OpenFlags) (fo : Except Errno Nat)
  | cclose
deriving Repr

/-- The state after one event (the state component of the entry point's
result; the entry points always return `some` state when given one). -/
def stepEv (zv : ZvolState) : ZEvent → ZvolState
  | ZEvent.gopen f c fo inc => (zvol_geom_open (some zv) f c fo inc).1.getD zv
  | ZEvent.gclose c => (zvol_geom_close (some zv) c).1.getD zv
  | ZEvent.copen f fo => (zvol_cdev_open (some zv) f fo).1.getD zv
  | ZEvent.cclose => (zvol_cdev_close (some zv)).1.getD zv

/-- The contract under which the kernel invokes the entry points:
`zvol_geom_access` only ever passes a non-zero count and never `O_EXCL`
("We don't pass FEXCL flag to zvol_geom_open()"), and closes match prior
opens — the driver ASSERTs `zv_open_count > 0` on close ("If the open count
is zero, this is a spurious close.  That indicates a bug in the kernel"). -/
def evOK (zv : ZvolState) : ZEvent → Bool
  | ZEvent.gopen f c _ _ => decide (0 < c) && !f.o_excl
  | ZEvent.gclose c => decide (0 < c) && decide ((c : Int) ≤ zv.zv_open_count)
  | ZEvent.copen _ _ => true
  | ZEvent.cclose => decide (1 ≤ zv.zv_open_count)

/-- Run a trace of events. -/
def runTrace (zv : ZvolState) : List ZEvent → ZvolState
  | [] => zv
  | e :: tr => runTrace (stepEv zv e) tr

/-- A trace every event of which respects the kernel contract at the state
where it fires. -/
def validTrace (zv : ZvolState) : List ZEvent → Bool
  | [] => true
  | e :: tr => evOK zv e && validTrace (stepEv zv e) tr

/-- The state of a freshly created volume (`zvol_alloc`): open count zero, no
flags set, no objset handle. -/
def initState (mode : Volmode) (rdonly : Bool) (volsize : Nat) (sa : Bool) : ZvolState :=
  { zv_open_count := 0, zv_excl := false, zv_rdonly := rdonly, zv_removing := false,
    zso_dying := false, zv_objset := none, zv_volsize := volsize,
    zv_volmode := mode, zv_sync_always := sa }

/-- The amount an event adds to the open count (zero for a failed open or for
a close). -/
def openAmount (zv : ZvolState) (e : ZEvent) : Int :=
  match e with
  | ZEvent.gopen _ _ _ _ | ZEvent.copen _ _ =>
    max ((stepEv zv e).zv_open_count - zv.zv_open_count) 0
  | _ => 0

/-- The amount an event subtracts from the open count (zero for an open). -/
def closeAmount (zv : ZvolState) (e : ZEvent) : Int :=
  match e with
  | ZEvent.gclose _ | ZEvent.cclose =>
    max (zv.zv_open_count - (stepEv zv e).zv_open_count) 0
  | _ => 0

/-- Total count added by the (successful) opens of a trace. -/
def totalOpened (zv : ZvolState) : List ZEvent → Int
  | [] => 0
  | e :: tr => openAmount zv e + totalOpened (stepEv zv e) tr

/-- Total count removed by the closes of a trace. -/
def totalClosed (zv : ZvolState) : List ZEvent → Int
  | [] => 0
  | e :: tr => closeAmount zv e + totalClosed (stepEv zv e) tr

/-- The state invariant tying the open count, the exclusive flag and the
objset handle together. -/
def GoodInv (zv : ZvolState) : Prop :=
  0 ≤ zv.zv_open_count ∧
  (zv.zv_excl = true → zv.zv_open_count = 1) ∧
  (0 < zv.zv_open_count → zv.zv_objset.isSome = true) ∧
  (zv.zv_open_count = 0 → zv.zv_objset = none)

/-!
## Helper lemmas
-/

theorem goodInv_open_part (zvA : ZvolState) (dw : Bool) (flag : OpenFlags) (count : Nat)
    (h0 : 0 ≤ zvA.zv_open_count)
    (hx : zvA.zv_excl = true → zvA.zv_open_count = 1)
    (hsome : zvA.zv_objset.isSome = true)
    (hc : 0 < count) (hox : flag.o_excl = true → count = 1) :
    GoodInv (zvol_open_out (zvol_open_checks zvA dw flag count)).1 := by
  unfold zvol_open_out zvol_open_checks zvol_last_close GoodInv
  split_ifs <;> simp_all <;> omega

theorem goodInv_cdev_open (zv : ZvolState) (flags : OpenFlags) (fo : Except Errno Nat)
    (hg : GoodInv zv) : GoodInv ((zvol_cdev_open (some zv) flags fo).1.getD zv) := by
  obtain ⟨h0, hx, hs, hn⟩ := hg
  by_cases hd : zv.zso_dying = true
  · simpa [zvol_cdev_open, hd, GoodInv] using ⟨h0, hx, hs, hn⟩
  · by_cases hcnt : zv.zv_open_count = 0
    · cases fo with
      | error e =>
        have heq : (zvol_cdev_open (some zv) flags (Except.error e)).1.getD zv = zv := by
          simp [zvol_cdev_open, hd, hcnt, zvol_first_open]
        rw [heq]; exact ⟨h0, hx, hs, hn⟩
      | ok hdl =>
        have h := goodInv_open_part { zv with zv_objset := some hdl } zv.zv_rdonly flags 1
          (by simpa using h0) (by simpa using hx) (by simp) (by norm_num) (fun _ => rfl)
        simpa [zvol_cdev_open, hd, hcnt, zvol_first_open] using h
    · have h := goodInv_open_part zv zv.zv_rdonly flags 1 h0 hx
        (by have := hs (lt_of_le_of_ne h0 (Ne.symm hcnt)); simpa using this)
        (by norm_num) (fun _ => rfl)
      simpa [zvol_cdev_open, hd, hcnt] using h

theorem goodInv_geom_open (zv : ZvolState) (flag : OpenFlags) (count : Nat)
    (fo : Except Errno Nat) (incompat : Bool) (hg : GoodInv zv)
    (hc : 0 < count) (hox : flag.o_excl = false) :
    GoodInv ((zvol_geom_open (some zv) flag count fo incompat).1.getD zv) := by
  obtain ⟨h0, hx, hs, hn⟩ := hg
  by_cases hd : (zv.zso_dying || zv.zv_removing) = true
  · simpa [zvol_geom_open, hd, GoodInv] using ⟨h0, hx, hs, hn⟩
  · by_cases hcnt : zv.zv_open_count = 0
    · cases fo with
      | error e =>
        have heq : (zvol_geom_open (some zv) flag count (Except.error e) incompat).1.getD zv
            = zv := by
          simp [zvol_geom_open, hd, hcnt, zvol_first_open]
        rw [heq]; exact ⟨h0, hx, hs, hn⟩
      | ok hdl =>
        have h := goodInv_open_part { zv with zv_objset := some hdl }
          (zv.zv_rdonly || incompat) flag count
          (by simpa using h0) (by simpa using hx) (by simp) hc (by simp [hox])
        simpa [zvol_geom_open, hd, hcnt, zvol_first_open] using h
    · have h := goodInv_open_part zv (zv.zv_rdonly || incompat) flag count h0 hx
        (by have := hs (lt_of_le_of_ne h0 (Ne.symm hcnt)); simpa using this)
        hc (by simp [hox])
      simpa [zvol_geom_open, hd, hcnt] using h

theorem goodInv_geom_close (zv : ZvolState) (count : Nat) (hg : GoodInv zv)
    (hc : 0 < count) (hle : (count : Int) ≤ zv.zv_open_count) :
    GoodInv ((zvol_geom_close (some zv) count).1.getD zv) := by
  obtain ⟨h0, hx, hs, hn⟩ := hg
  have hpos : 0 < zv.zv_open_count := lt_of_lt_of_le (by exact_mod_cast hc) hle
  have hsome := hs hpos
  simp only [zvol_geom_close, zvol_last_close, GoodInv, Option.getD_some]
  split_ifs <;> refine ⟨?_, ?_, ?_, ?_⟩ <;> simp_all <;> omega

theorem goodInv_cdev_close (zv : ZvolState) (hg : GoodInv zv)
    (hle : 1 ≤ zv.zv_open_count) :
    GoodInv ((zvol_cdev_close (some zv)).1.getD zv) := by
  obtain ⟨h0, hx, hs, hn⟩ := hg
  have hsome := hs (by omega)
  simp only [zvol_cdev_close, zvol_last_close, GoodInv, Option.getD_some]
  split_ifs <;> refine ⟨?_, ?_, ?_, ?_⟩ <;> simp_all <;> omega

theorem goodInv_step (zv : ZvolState) (e : ZEvent) (hg : GoodInv zv)
    (hok : evOK zv e = true) : GoodInv (stepEv zv e) := by
  cases e with
  | gopen f c fo inc =>
    simp only [evOK, Bool.and_eq_true, decide_eq_true_eq, Bool.not_eq_true'] at hok
    exact goodInv_geom_open zv f c fo inc hg hok.1 hok.2
  | gclose c =>
    simp only [evOK, Bool.and_eq_true, decide_eq_true_eq] at hok
    exact goodInv_geom_close zv c hg hok.1 hok.2
  | copen f fo => exact goodInv_cdev_open zv f fo hg
  | cclose =>
    simp only [evOK, decide_eq_true_eq] at hok
    exact goodInv_cdev_close zv hg hok

theorem goodInv_run (zv : ZvolState) (tr : List ZEvent) (hg : GoodInv zv)
    (hv : validTrace zv tr = true) : GoodInv (runTrace zv tr) := by
  induction tr generalizing zv with
  | nil => exact hg
  | cons e tr ih =>
    simp only [validTrace, Bool.and_eq_true] at hv
    exact ih (stepEv zv e) (goodInv_step zv e hg hv.1) hv.2

theorem goodInv_init (mode : Volmode) (rdonly : Bool) (volsize : Nat) (sa : Bool) :
    GoodInv (initState mode rdonly volsize sa) := by
  simp [GoodInv, initState]

theorem open_checks_count (zv : ZvolState) (dw : Bool) (flag : OpenFlags) (count : Nat) :
    (zvol_open_checks zv dw flag count).1.zv_open_count = zv.zv_open_count ∨
    (zvol_open_checks zv dw flag count).1.zv_open_count
      = zv.zv_open_count + (count : Int) := by
  unfold zvol_open_checks
  split_ifs <;> simp

theorem open_out_count (p : ZvolState × Option Errno) :
    (zvol_open_out p).1.zv_open_count = p.1.zv_open_count := by
  unfold zvol_open_out zvol_last_close
  split_ifs <;> simp_all

theorem geom_open_count (zv : ZvolState) (flag : OpenFlags) (count : Nat)
    (fo : Except Errno Nat) (incompat : Bool) :
    (stepEv zv (ZEvent.gopen flag count fo incompat)).zv_open_count = zv.zv_open_count ∨
    (stepEv zv (ZEvent.gopen flag count fo incompat)).zv_open_count
      = zv.zv_open_count + (count : Int) := by
  obtain ⟨cnt, ex, rd, rm, dy, os, vs, vm, sa⟩ := zv
  simp only [stepEv, zvol_geom_open]
  by_cases hd : (dy || rm) = true
  · simp [hd]
  · simp only [hd, Bool.false_eq_true, if_false, Option.getD_some]
    by_cases hcnt : cnt = (0 : Int)
    · subst hcnt
      cases fo with
      | error e => simp [zvol_first_open]
      | ok hdl =>
        simp only [zvol_first_open, if_true, ite_self, reduceIte, Option.getD_some]
        rw [open_out_count]
        exact open_checks_count _ _ _ _
    · simp only [if_neg hcnt, Option.getD_some]
      rw [open_out_count]
      exact open_checks_count _ _ _ _

theorem cdev_open_count (zv : ZvolState) (flags : OpenFlags) (fo : Except Errno Nat) :
    (stepEv zv (ZEvent.copen flags fo)).zv_open_count = zv.zv_open_count ∨
    (stepEv zv (ZEvent.copen flags fo)).zv_open_count = zv.zv_open_count + 1 := by
  obtain ⟨cnt, ex, rd, rm, dy, os, vs, vm, sa⟩ := zv
  simp only [stepEv, zvol_cdev_open]
  by_cases hd : dy = true
  · simp [hd]
  · simp only [hd, Bool.false_eq_true, if_false, Option.getD_some]
    by_cases hcnt : cnt = (0 : Int)
    · subst hcnt
      cases fo with
      | error e => simp [zvol_first_open]
      | ok hdl =>
        simp only [zvol_first_open, if_true, ite_self, reduceIte, Option.getD_some]
        rw [open_out_count]
        simpa using open_checks_count _ _ _ _
    · simp only [if_neg hcnt, Option.getD_some]
      rw [open_out_count]
      simpa using open_checks_count _ _ _ _

theorem geom_close_count (zv : ZvolState) (count : Nat) :
    (stepEv zv (ZEvent.gclose count)).zv_open_count = zv.zv_open_count - (count : Int) := by
  simp only [stepEv, zvol_geom_close, zvol_last_close, Option.getD_some]
  split_ifs <;> simp

theorem cdev_close_count (zv : ZvolState) :
    (stepEv zv ZEvent.cclose).zv_open_count = zv.zv_open_count - 1 := by
  simp only [stepEv, zvol_cdev_close, zvol_last_close, Option.getD_some]
  split_ifs <;> simp

theorem count_step (zv : ZvolState) (e : ZEvent) :
    (stepEv zv e).zv_open_count
      = zv.zv_open_count + openAmount zv e - closeAmount zv e := by
  cases e with
  | gopen f c fo inc =>
    rcases geom_open_count zv f c fo inc with h | h <;>
      simp [openAmount, closeAmount, h] <;> omega
  | copen f fo =>
    rcases cdev_open_count zv f fo with h | h <;>
      simp [openAmount, closeAmount, h] <;> omega
  | gclose c =>
    simp [openAmount, closeAmount, geom_close_count] <;> omega
  | cclose =>
    simp [openAmount, closeAmount, cdev_close_count] <;> omega

theorem runTrace_count (tr : List ZEvent) (zv : ZvolState) :
    (runTrace zv tr).zv_open_count
      = zv.zv_open_count + totalOpened zv tr - totalClosed zv tr := by
  induction tr generalizing zv with
  | nil => simp [runTrace, totalOpened, totalClosed]
  | cons e tr ih =>
    simp only [runTrace, totalOpened, totalClosed]
    rw [ih (stepEv zv e), count_step]
    ring

theorem zvol_maxphys_pos : 0 < zvol_maxphys := by decide

theorem strategy_loop_go_zero_resid (oracle : Nat → Option Errno) (volsize : Nat)
    (fuel off idx : Nat) :
    strategy_loop_go oracle volsize fuel off 0 idx = ⟨off, 0, none, []⟩ := by
  cases fuel <;> simp [strategy_loop_go]

theorem strategy_loop_go_fuel (oracle : Nat → Option Errno) (volsize : Nat) :
    ∀ fuel1 fuel2 off resid idx, resid ≤ fuel1 → resid ≤ fuel2 →
      strategy_loop_go oracle volsize fuel1 off resid idx
        = strategy_loop_go oracle volsize fuel2 off resid idx := by
  intro fuel1
  induction fuel1 with
  | zero =>
    intro fuel2 off resid idx h1 h2
    obtain rfl : resid = 0 := Nat.le_zero.mp h1
    rw [strategy_loop_go_zero_resid, strategy_loop_go_zero_resid]
  | succ f ih =>
    intro fuel2 off resid idx h1 h2
    by_cases hz : resid = 0
    · subst hz
      rw [strategy_loop_go_zero_resid, strategy_loop_go_zero_resid]
    · cases fuel2 with
      | zero => omega
      | succ f2 =>
        simp only [strategy_loop_go]
        by_cases h : resid ≠ 0 ∧ off < volsize
        · rw [if_pos h, if_pos h]
          cases ho : oracle idx with
          | some e => rfl
          | none =>
            have hpos : 0 < min resid zvol_maxphys :=
              lt_min (Nat.pos_of_ne_zero hz) zvol_maxphys_pos
            have hle : min resid zvol_maxphys ≤ resid := Nat.min_le_left _ _
            dsimp only
            rw [ih f2 _ _ _ (by omega) (by omega)]
        · rw [if_neg h, if_neg h]

theorem strategy_loop_eq (oracle : Nat → Option Errno) (volsize off resid idx : Nat) :
    strategy_loop oracle volsize off resid idx =
      (if resid ≠ 0 ∧ off < volsize then
        let size := min resid zvol_maxphys
        match oracle idx with
        | some e => ⟨off, resid, some (remap_cksum e), [⟨off, size, false⟩]⟩
        | none =>
          let r := strategy_loop oracle volsize (off + size) (resid - size) (idx + 1)
          ⟨r.l_off, r.l_resid, r.l_err, ⟨off, size, true⟩ :: r.l_chunks⟩
      else ⟨off, resid, none, []⟩) := by
  unfold strategy_loop
  cases resid with
  | zero =>
    rw [strategy_loop_go_zero_resid]
    simp
  | succ n =>
    simp only [strategy_loop_go]
    by_cases h : n + 1 ≠ 0 ∧ off < volsize
    · rw [if_pos h, if_pos h]
      cases ho : oracle idx with
      | some e => rfl
      | none =>
        have hpos : 0 < min (n + 1) zvol_maxphys :=
          lt_min (Nat.succ_pos n) zvol_maxphys_pos
        have hle : min (n + 1) zvol_maxphys ≤ n + 1 := Nat.min_le_left _ _
        have hfix := strategy_loop_go_fuel oracle volsize n
          (n + 1 - min (n + 1) zvol_maxphys) (off + min (n + 1) zvol_maxphys)
          (n + 1 - min (n + 1) zvol_maxphys) (idx + 1) (by omega) (le_refl _)
        dsimp only
        rw [hfix]
    · rw [if_neg h, if_neg h]

theorem cdev_read_loop_go_zero_resid (oracle : Nat → Option Errno) (volsize : Nat)
    (fuel off idx : Nat) :
    zvol_cdev_read_loop_go oracle volsize fuel off 0 idx = ⟨off, 0, none, []⟩ := by
  cases fuel <;> simp [zvol_cdev_read_loop_go]

theorem cdev_read_loop_go_fuel (oracle : Nat → Option Errno) (volsize : Nat) :
    ∀ fuel1 fuel2 off resid idx, resid ≤ fuel1 → resid ≤ fuel2 →
      zvol_cdev_read_loop_go oracle volsize fuel1 off resid idx
        = zvol_cdev_read_loop_go oracle volsize fuel2 off resid idx := by
  intro fuel1
  induction fuel1 with
  | zero =>
    intro fuel2 off resid idx h1 h2
    obtain rfl : resid = 0 := Nat.le_zero.mp h1
    rw [cdev_read_loop_go_zero_resid, cdev_read_loop_go_zero_resid]
  | succ f ih =>
    intro fuel2 off resid idx h1 h2
    by_cases hz : resid = 0
    · subst hz
      rw [cdev_read_loop_go_zero_resid, cdev_read_loop_go_zero_resid]
    · cases fuel2 with
      | zero => omega
      | succ f2 =>
        simp only [zvol_cdev_read_loop_go]
        by_cases h : 0 < resid ∧ off < volsize
        · rw [if_pos h, if_pos h]
          cases ho : oracle idx with
          | some e => rfl
          | none =>
            have hpos : 0 < min resid (DMU_MAX_ACCESS >>> 1) := lt_min h.1 (by decide)
            have hv : 0 < volsize - off := Nat.sub_pos_of_lt h.2
            have hb1 : 1 ≤ (if min resid (DMU_MAX_ACCESS >>> 1) > volsize - off
                then volsize - off else min resid (DMU_MAX_ACCESS >>> 1)) := by
              split_ifs <;> omega
            have hfix := ih f2
              (off + (if min resid (DMU_MAX_ACCESS >>> 1) > volsize - off
                then volsize - off else min resid (DMU_MAX_ACCESS >>> 1)))
              (resid - (if min resid (DMU_MAX_ACCESS >>> 1) > volsize - off
                then volsize - off else min resid (DMU_MAX_ACCESS >>> 1)))
              (idx + 1) (by omega) (by omega)
            dsimp only
            rw [hfix]
        · rw [if_neg h, if_neg h]

theorem zvol_cdev_read_loop_eq (oracle : Nat → Option Errno) (volsize off resid idx : Nat) :
    zvol_cdev_read_loop oracle volsize off resid idx =
      (if 0 < resid ∧ off < volsize then
        let bytes0 := min resid (DMU_MAX_ACCESS >>> 1)
        let bytes := if bytes0 > volsize - off then volsize - off else bytes0
        match oracle idx with
        | some e => ⟨off, resid, some (remap_cksum e), [⟨off, bytes, false⟩]⟩
        | none =>
          let r := zvol_cdev_read_loop oracle volsize (off + bytes) (resid - bytes) (idx + 1)
          ⟨r.l_off, r.l_resid, r.l_err, ⟨off, bytes, true⟩ :: r.l_chunks⟩
      else ⟨off, resid, none, []⟩) := by
  unfold zvol_cdev_read_loop
  cases resid with
  | zero =>
    rw [cdev_read_loop_go_zero_resid]
    simp
  | succ n =>
    simp only [zvol_cdev_read_loop_go]
    by_cases h : 0 < n + 1 ∧ off < volsize
    · rw [if_pos h, if_pos h]
      cases ho : oracle idx with
      | some e => rfl
      | none =>
        have hpos : 0 < min (n + 1) (DMU_MAX_ACCESS >>> 1) := lt_min h.1 (by decide)
        have hv : 0 < volsize - off := Nat.sub_pos_of_lt h.2
        have hb1 : 1 ≤ (if min (n + 1) (DMU_MAX_ACCESS >>> 1) > volsize - off
            then volsize - off else min (n + 1) (DMU_MAX_ACCESS >>> 1)) := by
          split_ifs <;> omega
        have hfix := cdev_read_loop_go_fuel oracle volsize n
          (n + 1 - (if min (n + 1) (DMU_MAX_ACCESS >>> 1) > volsize - off
            then volsize - off else min (n + 1) (DMU_MAX_ACCESS >>> 1)))
          (off + (if min (n + 1) (DMU_MAX_ACCESS >>> 1) > volsize - off
            then volsize - off else min (n + 1) (DMU_MAX_ACCESS >>> 1)))
          (n + 1 - (if min (n + 1) (DMU_MAX_ACCESS >>> 1) > volsize - off
            then volsize - off else min (n + 1) (DMU_MAX_ACCESS >>> 1)))
          (idx + 1) (by omega) (le_refl _)
        dsimp only
        rw [hfix]
    · rw [if_neg h, if_neg h]

theorem cdev_write_loop_go_zero_resid (oracle : Nat → WStep) (volsize : Nat)
    (fuel off idx : Nat) :
    zvol_cdev_write_loop_go oracle volsize fuel off 0 idx = ⟨off, 0, none, []⟩ := by
  cases fuel <;> simp [zvol_cdev_write_loop_go]

theorem cdev_write_loop_go_fuel (oracle : Nat → WStep) (volsize : Nat) :
    ∀ fuel1 fuel2 off resid idx, resid ≤ fuel1 → resid ≤ fuel2 →
      zvol_cdev_write_loop_go oracle volsize fuel1 off resid idx
        = zvol_cdev_write_loop_go oracle volsize fuel2 off resid idx := by
  intro fuel1
  induction fuel1 with
  | zero =>
    intro fuel2 off resid idx h1 h2
    obtain rfl : resid = 0 := Nat.le_zero.mp h1
    rw [cdev_write_loop_go_zero_resid, cdev_write_loop_go_zero_resid]
  | succ f ih =>
    intro fuel2 off resid idx h1 h2
    by_cases hz : resid = 0
    · subst hz
      rw [cdev_write_loop_go_zero_resid, cdev_write_loop_go_zero_resid]
    · cases fuel2 with
      | zero => omega
      | succ f2 =>
        simp only [zvol_cdev_write_loop_go]
        by_cases h : 0 < resid ∧ off < volsize
        · rw [if_pos h, if_pos h]
          cases ho : oracle idx with
          | assignFail e => rfl
          | writeFail e => rfl
          | ok =>
            have hpos : 0 < min resid (DMU_MAX_ACCESS >>> 1) := lt_min h.1 (by decide)
            have hv : 0 < volsize - off := Nat.sub_pos_of_lt h.2
            have hb1 : 1 ≤ (if min resid (DMU_MAX_ACCESS >>> 1) > volsize - off
                then volsize - off else min resid (DMU_MAX_ACCESS >>> 1)) := by
              split_ifs <;> omega
            have hfix := ih f2
              (off + (if min resid (DMU_MAX_ACCESS >>> 1) > volsize - off
                then volsize - off else min resid (DMU_MAX_ACCESS >>> 1)))
              (resid - (if min resid (DMU_MAX_ACCESS >>> 1) > volsize - off
                then volsize - off else min resid (DMU_MAX_ACCESS >>> 1)))
              (idx + 1) (by omega) (by omega)
            dsimp only
            rw [hfix]
        · rw [if_neg h, if_neg h]

theorem zvol_cdev_write_loop_eq (oracle : Nat → WStep) (volsize off resid idx : Nat) :
    zvol_cdev_write_loop oracle volsize off resid idx =
      (if 0 < resid ∧ off < volsize then
        let bytes0 := min resid (DMU_MAX_ACCESS >>> 1)
        let bytes := if bytes0 > volsize - off then volsize - off else bytes0
        match oracle idx with
        | WStep.assignFail e => ⟨off, resid, some e, [⟨off, bytes, WOut.abortedTx⟩]⟩
        | WStep.writeFail e => ⟨off, resid, some e, [⟨off, bytes, WOut.committedNoData⟩]⟩
        | WStep.ok =>
          let r := zvol_cdev_write_loop oracle volsize (off + bytes) (resid - bytes) (idx + 1)
          ⟨r.wl_off, r.wl_resid, r.wl_err, ⟨off, bytes, WOut.committed⟩ :: r.wl_chunks⟩
      else ⟨off, resid, none, []⟩) := by
  unfold zvol_cdev_write_loop
  cases resid with
  | zero =>
    rw [cdev_write_loop_go_zero_resid]
    simp
  | succ n =>
    simp only [zvol_cdev_write_loop_go]
    by_cases h : 0 < n + 1 ∧ off < volsize
    · rw [if_pos h, if_pos h]
      cases ho : oracle idx with
      | assignFail e => rfl
      | writeFail e => rfl
      | ok =>
        have hpos : 0 < min (n + 1) (DMU_MAX_ACCESS >>> 1) := lt_min h.1 (by decide)
        have hv : 0 < volsize - off := Nat.sub_pos_of_lt h.2
        have hb1 : 1 ≤ (if min (n + 1) (DMU_MAX_ACCESS >>> 1) > volsize - off
            then volsize - off else min (n + 1) (DMU_MAX_ACCESS >>> 1)) := by
          split_ifs <;> omega
        have hfix := cdev_write_loop_go_fuel oracle volsize n
          (n + 1 - (if min (n + 1) (DMU_MAX_ACCESS >>> 1) > volsize - off
            then volsize - off else min (n + 1) (DMU_MAX_ACCESS >>> 1)))
          (off + (if min (n + 1) (DMU_MAX_ACCESS >>> 1) > volsize - off
            then volsize - off else min (n + 1) (DMU_MAX_ACCESS >>> 1)))
          (n + 1 - (if min (n + 1) (DMU_MAX_ACCESS >>> 1) > volsize - off
            then volsize - off else min (n + 1) (DMU_MAX_ACCESS >>> 1)))
          (idx + 1) (by omega) (le_refl _)
        dsimp only
        rw [hfix]
    · rw [if_neg h, if_neg h]

theorem sumCommitted_nil : sumCommitted [] = 0 := rfl

theorem sumCommitted_cons_ok (o s : Nat) (l : List ChunkRec) :
    sumCommitted (⟨o, s, true⟩ :: l) = s + sumCommitted l := by
  simp [sumCommitted]

theorem sumCommitted_cons_fail (o s : Nat) (l : List ChunkRec) :
    sumCommitted (⟨o, s, false⟩ :: l) = sumCommitted l := by
  simp [sumCommitted]

theorem remap_cksum_ne_ecksum (e : Errno) : remap_cksum e ≠ Errno.ecksum := by
  cases e <;> simp [remap_cksum]

theorem strategy_loop_acct (oracle : Nat → Option Errno) (volsize : Nat) :
    ∀ resid off idx,
      sumCommitted (strategy_loop oracle volsize off resid idx).l_chunks ≤ resid ∧
      (strategy_loop oracle volsize off resid idx).l_resid
        = resid - sumCommitted (strategy_loop oracle volsize off resid idx).l_chunks ∧
      (strategy_loop oracle volsize off resid idx).l_off
        = off + sumCommitted (strategy_loop oracle volsize off resid idx).l_chunks := by
  intro resid
  induction resid using Nat.strong_induction_on with
  | _ resid ih =>
    intro off idx
    rw [strategy_loop_eq]
    by_cases h : resid ≠ 0 ∧ off < volsize
    · rw [if_pos h]
      have hsz : min resid zvol_maxphys ≤ resid := Nat.min_le_left _ _
      have hpos : 0 < min resid zvol_maxphys :=
        lt_min (Nat.pos_of_ne_zero h.1) zvol_maxphys_pos
      cases ho : oracle idx with
      | some e => simp [sumCommitted_cons_fail, sumCommitted_nil]
      | none =>
        have hrec := ih (resid - min resid zvol_maxphys) (by omega)
          (off + min resid zvol_maxphys) (idx + 1)
        simp only [sumCommitted_cons_ok]
        refine ⟨by omega, by omega, by omega⟩
    · rw [if_neg h]
      simp [sumCommitted_nil]

theorem strategy_loop_cap (oracle : Nat → Option Errno) (volsize : Nat) :
    ∀ resid off idx c, c ∈ (strategy_loop oracle volsize off resid idx).l_chunks →
      c.c_size ≤ zvol_maxphys := by
  intro resid
  induction resid using Nat.strong_induction_on with
  | _ resid ih =>
    intro off idx c hc
    rw [strategy_loop_eq] at hc
    by_cases h : resid ≠ 0 ∧ off < volsize
    · rw [if_pos h] at hc
      have hpos : 0 < min resid zvol_maxphys :=
        lt_min (Nat.pos_of_ne_zero h.1) zvol_maxphys_pos
      cases ho : oracle idx with
      | some e =>
        rw [ho] at hc
        simp only [List.mem_singleton] at hc
        subst hc
        exact Nat.min_le_right _ _
      | none =>
        rw [ho] at hc
        simp only [List.mem_cons] at hc
        rcases hc with hc | hc
        · subst hc; exact Nat.min_le_right _ _
        · exact ih (resid - min resid zvol_maxphys) (by omega) _ _ c hc
    · rw [if_neg h] at hc
      simp at hc

theorem strategy_loop_err_none (oracle : Nat → Option Errno) (volsize : Nat) :
    ∀ resid off idx, (strategy_loop oracle volsize off resid idx).l_err = none →
      ∀ c ∈ (strategy_loop oracle volsize off resid idx).l_chunks, c.c_ok = true := by
  intro resid
  induction resid using Nat.strong_induction_on with
  | _ resid ih =>
    intro off idx herr c hc
    rw [strategy_loop_eq] at herr hc
    by_cases h : resid ≠ 0 ∧ off < volsize
    · rw [if_pos h] at herr hc
      have hpos : 0 < min resid zvol_maxphys :=
        lt_min (Nat.pos_of_ne_zero h.1) zvol_maxphys_pos
      cases ho : oracle idx with
      | some e => rw [ho] at herr; simp at herr
      | none =>
        rw [ho] at herr hc
        simp only [List.mem_cons] at hc
        rcases hc with hc | hc
        · subst hc; rfl
        · exact ih (resid - min resid zvol_maxphys) (by omega) _ _ herr c hc
    · rw [if_neg h] at hc
      simp at hc

theorem strategy_loop_err_some (oracle : Nat → Option Errno) (volsize : Nat) :
    ∀ resid off idx e, (strategy_loop oracle volsize off resid idx).l_err = some e →
      e ≠ Errno.ecksum ∧ (strategy_loop oracle volsize off resid idx).l_off < volsize ∧
      (strategy_loop oracle volsize off resid idx).l_resid ≠ 0 ∧
      ∃ pre lastc, (strategy_loop oracle volsize off resid idx).l_chunks = pre ++ [lastc] ∧
        (∀ c ∈ pre, c.c_ok = true) ∧ lastc.c_ok = false := by
  intro resid
  induction resid using Nat.strong_induction_on with
  | _ resid ih =>
    intro off idx e herr
    rw [strategy_loop_eq] at herr ⊢
    by_cases h : resid ≠ 0 ∧ off < volsize
    · rw [if_pos h] at herr ⊢
      have hpos : 0 < min resid zvol_maxphys :=
        lt_min (Nat.pos_of_ne_zero h.1) zvol_maxphys_pos
      cases ho : oracle idx with
      | some e0 =>
        rw [ho] at herr
        dsimp only at herr ⊢
        rw [Option.some_inj] at herr
        subst herr
        refine ⟨remap_cksum_ne_ecksum e0, h.2, h.1,
          [], ⟨off, min resid zvol_maxphys, false⟩, by simp, by simp, rfl⟩
      | none =>
        rw [ho] at herr
        dsimp only at herr ⊢
        have hrec := ih (resid - min resid zvol_maxphys) (by omega)
          (off + min resid zvol_maxphys) (idx + 1) e herr
        obtain ⟨hne, hoff, hres, pre, lastc, hchunks, hpre, hlast⟩ := hrec
        refine ⟨hne, hoff, hres, ⟨off, min resid zvol_maxphys, true⟩ :: pre, lastc, ?_, ?_, hlast⟩
        · simp [hchunks]
        · intro c hc
          rcases List.mem_cons.mp hc with hc | hc
          · subst hc; rfl
          · exact hpre c hc
    · rw [if_neg h] at herr
      simp at herr

theorem strategy_loop_fail_err (oracle : Nat → Option Errno) (volsize : Nat)
    (resid off idx : Nat)
    (hfail : ∃ c ∈ (strategy_loop oracle volsize off resid idx).l_chunks, c.c_ok = false) :
    ∃ e, (strategy_loop oracle volsize off resid idx).l_err = some e := by
  cases herr : (strategy_loop oracle volsize off resid idx).l_err with
  | some e => exact ⟨e, rfl⟩
  | none =>
    obtain ⟨c, hc, hck⟩ := hfail
    have := strategy_loop_err_none oracle volsize resid off idx herr c hc
    rw [this] at hck
    exact absurd hck (by simp)

theorem cdev_read_loop_cap (oracle : Nat → Option Errno) (volsize : Nat) :
    ∀ resid off idx c, c ∈ (zvol_cdev_read_loop oracle volsize off resid idx).l_chunks →
      c.c_size ≤ DMU_MAX_ACCESS >>> 1 := by
  intro resid
  induction resid using Nat.strong_induction_on with
  | _ resid ih =>
    intro off idx c hc
    rw [zvol_cdev_read_loop_eq] at hc
    by_cases h : 0 < resid ∧ off < volsize
    · rw [if_pos h] at hc
      have hcap : (if min resid (DMU_MAX_ACCESS >>> 1) > volsize - off
          then volsize - off else min resid (DMU_MAX_ACCESS >>> 1)) ≤ DMU_MAX_ACCESS >>> 1 := by
        split_ifs with hclip
        · have := Nat.min_le_right resid (DMU_MAX_ACCESS >>> 1); omega
        · exact Nat.min_le_right _ _
      have hpos : 0 < min resid (DMU_MAX_ACCESS >>> 1) := lt_min h.1 (by decide)
      cases ho : oracle idx with
      | some e =>
        rw [ho] at hc
        simp only [List.mem_singleton] at hc
        subst hc
        exact hcap
      | none =>
        rw [ho] at hc
        simp only [List.mem_cons] at hc
        rcases hc with hc | hc
        · subst hc; exact hcap
        · refine ih _ ?_ _ _ c hc
          split_ifs <;> omega
    · rw [if_neg h] at hc
      simp at hc

theorem cdev_read_loop_err (oracle : Nat → Option Errno) (volsize : Nat) :
    ∀ resid off idx e, (zvol_cdev_read_loop oracle volsize off resid idx).l_err = some e →
      e ≠ Errno.ecksum := by
  intro resid
  induction resid using Nat.strong_induction_on with
  | _ resid ih =>
    intro off idx e herr
    rw [zvol_cdev_read_loop_eq] at herr
    by_cases h : 0 < resid ∧ off < volsize
    · rw [if_pos h] at herr
      have hpos : 0 < min resid (DMU_MAX_ACCESS >>> 1) := lt_min h.1 (by decide)
      cases ho : oracle idx with
      | some e0 =>
        rw [ho] at herr
        dsimp only at herr
        rw [Option.some_inj] at herr
        subst herr
        exact remap_cksum_ne_ecksum e0
      | none =>
        rw [ho] at herr
        dsimp only at herr
        refine ih _ ?_ _ _ e herr
        split_ifs <;> omega
    · rw [if_neg h] at herr
      simp at herr

theorem cdev_write_loop_cap (oracle : Nat → WStep) (volsize : Nat) :
    ∀ resid off idx c, c ∈ (zvol_cdev_write_loop oracle volsize off resid idx).wl_chunks →
      c.w_bytes ≤ DMU_MAX_ACCESS >>> 1 := by
  intro resid
  induction resid using Nat.strong_induction_on with
  | _ resid ih =>
    intro off idx c hc
    rw [zvol_cdev_write_loop_eq] at hc
    by_cases h : 0 < resid ∧ off < volsize
    · rw [if_pos h] at hc
      have hcap : (if min resid (DMU_MAX_ACCESS >>> 1) > volsize - off
          then volsize - off else min resid (DMU_MAX_ACCESS >>> 1)) ≤ DMU_MAX_ACCESS >>> 1 := by
        split_ifs with hclip
        · have := Nat.min_le_right resid (DMU_MAX_ACCESS >>> 1); omega
        · exact Nat.min_le_right _ _
      have hpos : 0 < min resid (DMU_MAX_ACCESS >>> 1) := lt_min h.1 (by decide)
      cases ho : oracle idx with
      | assignFail e =>
        rw [ho] at hc
        simp only [List.mem_singleton] at hc
        subst hc
        exact hcap
      | writeFail e =>
        rw [ho] at hc
        simp only [List.mem_singleton] at hc
        subst hc
        exact hcap
      | ok =>
        rw [ho] at hc
        simp only [List.mem_cons] at hc
        rcases hc with hc | hc
        · subst hc; exact hcap
        · refine ih _ ?_ _ _ c hc
          split_ifs <;> omega
    · rw [if_neg h] at hc
      simp at hc

theorem cdev_write_loop_err (oracle : Nat → WStep) (volsize : Nat)
    (hno : ∀ i, oracle i ≠ WStep.assignFail Errno.ecksum ∧
                oracle i ≠ WStep.writeFail Errno.ecksum) :
    ∀ resid off idx e, (zvol_cdev_write_loop oracle volsize off resid idx).wl_err = some e →
      e ≠ Errno.ecksum := by
  intro resid
  induction resid using Nat.strong_induction_on with
  | _ resid ih =>
    intro off idx e herr
    rw [zvol_cdev_write_loop_eq] at herr
    by_cases h : 0 < resid ∧ off < volsize
    · rw [if_pos h] at herr
      have hpos : 0 < min resid (DMU_MAX_ACCESS >>> 1) := lt_min h.1 (by decide)
      cases ho : oracle idx with
      | assignFail e0 =>
        rw [ho] at herr
        dsimp only at herr
        rw [Option.some_inj] at herr
        subst herr
        intro hcontra
        subst hcontra
        exact (hno idx).1 ho
      | writeFail e0 =>
        rw [ho] at herr
        dsimp only at herr
        rw [Option.some_inj] at herr
        subst herr
        intro hcontra
        subst hcontra
        exact (hno idx).2 ho
      | ok =>
        rw [ho] at herr
        dsimp only at herr
        refine ih _ ?_ _ _ e herr
        split_ifs <;> omega
    · rw [if_neg h] at herr
      simp at herr

theorem strategy_impl_oob (zv : ZvolState) (bp : BioReq) (oracle : Nat → Option Errno)
    (dtx ferr : Option Errno) (hrm : zv.zv_removing = false)
    (hcmd : bp.bio_cmd = BioCmd.bread ∨
      ((bp.bio_cmd = BioCmd.bwrite ∨ bp.bio_cmd = BioCmd.bdelete) ∧ zv.zv_rdonly = false))
    (hlen : bp.bio_length > 0) (hoff : bp.bio_offset ≥ zv.zv_volsize) :
    zvol_strategy_impl (some zv) bp oracle dtx ferr
      = ⟨some Errno.eio, 0, [], none, false, false⟩ := by
  have hbound : bp.bio_length > 0 ∧ bp.bio_offset ≥ zv.zv_volsize := ⟨hlen, hoff⟩
  rcases hcmd with hc | ⟨hc | hc, hrd⟩
  · simp [zvol_strategy_impl, hrm, hc, hbound]
  · simp [zvol_strategy_impl, hrm, hc, hrd, hbound]
  · simp [zvol_strategy_impl, hrm, hc, hrd, hbound]

theorem strategy_impl_rw_eq (zv : ZvolState) (bp : BioReq) (oracle : Nat → Option Errno)
    (dtx ferr : Option Errno) (hrm : zv.zv_removing = false)
    (hcmd : bp.bio_cmd = BioCmd.bread ∨
      (bp.bio_cmd = BioCmd.bwrite ∧ zv.zv_rdonly = false))
    (hbound : ¬(bp.bio_length > 0 ∧ bp.bio_offset ≥ zv.zv_volsize)) :
    zvol_strategy_impl (some zv) bp oracle dtx ferr =
      ⟨(if bp.bio_length -
            (strategy_loop oracle zv.zv_volsize bp.bio_offset bp.bio_length 0).l_resid
            < bp.bio_length ∧
            (strategy_loop oracle zv.zv_volsize bp.bio_offset bp.bio_length 0).l_off
            > zv.zv_volsize
         then some Errno.einval
         else (strategy_loop oracle zv.zv_volsize bp.bio_offset bp.bio_length 0).l_err),
       bp.bio_length -
         (strategy_loop oracle zv.zv_volsize bp.bio_offset bp.bio_length 0).l_resid,
       (strategy_loop oracle zv.zv_volsize bp.bio_offset bp.bio_length 0).l_chunks,
       none, false, bp.bio_cmd ≠ BioCmd.bread && zv.zv_sync_always⟩ := by
  rcases hcmd with hc | ⟨hc, hrd⟩
  · simp [zvol_strategy_impl, hrm, hc, hbound]
  · simp [zvol_strategy_impl, hrm, hc, hrd, hbound]

theorem strategy_impl_delete_eq (zv : ZvolState) (bp : BioReq)
    (oracle : Nat → Option Errno) (ferr : Option Errno) (hrm : zv.zv_removing = false)
    (hrd : zv.zv_rdonly = false) (hcmd : bp.bio_cmd = BioCmd.bdelete)
    (hbound : ¬(bp.bio_length > 0 ∧ bp.bio_offset ≥ zv.zv_volsize)) :
    zvol_strategy_impl (some zv) bp oracle none ferr =
      ⟨ferr, bp.bio_length, [],
       (if ferr = none
        then some (dmu_free_long_range zv.zv_volsize bp.bio_offset bp.bio_length)
        else none),
       false, zv.zv_sync_always⟩ := by
  simp [zvol_strategy_impl, hrm, hcmd, hrd, hbound]

theorem strategy_chunks_cases (zv : ZvolState) (bp : BioReq)
    (oracle : Nat → Option Errno) (dtx ferr : Option Errno) :
    (zvol_strategy_impl (some zv) bp oracle dtx ferr).s_chunks = [] ∨
    (zvol_strategy_impl (some zv) bp oracle dtx ferr).s_chunks
      = (strategy_loop oracle zv.zv_volsize bp.bio_offset bp.bio_length 0).l_chunks := by
  by_cases hrm : zv.zv_removing = true
  · left; simp [zvol_strategy_impl, hrm]
  · have hrm' : zv.zv_removing = false := by simpa using hrm
    cases hcd : bp.bio_cmd with
    | bother => left; simp [zvol_strategy_impl, hrm', hcd]
    | bflush =>
      left
      by_cases hrd : zv.zv_rdonly = true <;> simp [zvol_strategy_impl, hrm', hcd, hrd]
    | bdelete =>
      left
      by_cases hrd : zv.zv_rdonly = true
      · simp [zvol_strategy_impl, hrm', hcd, hrd]
      · have hrd' : zv.zv_rdonly = false := by simpa using hrd
        by_cases hb : bp.bio_length > 0 ∧ bp.bio_offset ≥ zv.zv_volsize
        · simp [zvol_strategy_impl, hrm', hcd, hrd', hb]
        · rcases dtx with _ | e
          · rw [strategy_impl_delete_eq zv bp oracle ferr hrm' hrd' hcd hb]
          · simp [zvol_strategy_impl, hrm', hcd, hrd', hb]
    | bread =>
      by_cases hb : bp.bio_length > 0 ∧ bp.bio_offset ≥ zv.zv_volsize
      · left
        rw [strategy_impl_oob zv bp oracle dtx ferr hrm' (Or.inl hcd) hb.1 hb.2]
      · right
        rw [strategy_impl_rw_eq zv bp oracle dtx ferr hrm' (Or.inl hcd) hb]
    | bwrite =>
      by_cases hrd : zv.zv_rdonly = true
      · left; simp [zvol_strategy_impl, hrm', hcd, hrd]
      · have hrd' : zv.zv_rdonly = false := by simpa using hrd
        by_cases hb : bp.bio_length > 0 ∧ bp.bio_offset ≥ zv.zv_volsize
        · left
          rw [strategy_impl_oob zv bp oracle dtx ferr hrm'
            (Or.inr ⟨Or.inl hcd, hrd'⟩) hb.1 hb.2]
        · right
          rw [strategy_impl_rw_eq zv bp oracle dtx ferr hrm' (Or.inr ⟨hcd, hrd'⟩) hb]

theorem strategy_err_ne_ecksum (zv? : Option ZvolState) (bp : BioReq)
    (oracle : Nat → Option Errno) (dtx ferr : Option Errno)
    (hcmd : bp.bio_cmd = BioCmd.bread ∨ bp.bio_cmd = BioCmd.bwrite) :
    (zvol_strategy_impl zv? bp oracle dtx ferr).s_err ≠ some Errno.ecksum := by
  rcases zv? with _ | zv
  · simp [zvol_strategy_impl]
  · by_cases hrm : zv.zv_removing = true
    · simp [zvol_strategy_impl, hrm]
    · have hrm' : zv.zv_removing = false := by simpa using hrm
      have main : ∀ hcd2 : bp.bio_cmd = BioCmd.bread ∨
          (bp.bio_cmd = BioCmd.bwrite ∧ zv.zv_rdonly = false),
          (zvol_strategy_impl (some zv) bp oracle dtx ferr).s_err ≠ some Errno.ecksum := by
        intro hcd2
        by_cases hb : bp.bio_length > 0 ∧ bp.bio_offset ≥ zv.zv_volsize
        · have hcd3 : bp.bio_cmd = BioCmd.bread ∨
              ((bp.bio_cmd = BioCmd.bwrite ∨ bp.bio_cmd = BioCmd.bdelete) ∧
                zv.zv_rdonly = false) := by
            rcases hcd2 with h | ⟨h1, h2⟩
            · exact Or.inl h
            · exact Or.inr ⟨Or.inl h1, h2⟩
          rw [strategy_impl_oob zv bp oracle dtx ferr hrm' hcd3 hb.1 hb.2]
          simp
        · rw [strategy_impl_rw_eq zv bp oracle dtx ferr hrm' hcd2 hb]
          dsimp only
          split_ifs with hcond
          · simp
          · cases hL : (strategy_loop oracle zv.zv_volsize bp.bio_offset
                bp.bio_length 0).l_err with
            | none => simp [hL]
            | some e =>
              have hne := (strategy_loop_err_some oracle zv.zv_volsize bp.bio_length
                bp.bio_offset 0 e hL).1
              simpa [hL] using hne
      rcases hcmd with hcd | hcd
      · exact main (Or.inl hcd)
      · by_cases hrd : zv.zv_rdonly = true
        · simp [zvol_strategy_impl, hrm', hcd, hrd]
        · exact main (Or.inr ⟨hcd, by simpa using hrd⟩)

theorem cdev_read_loop_all_ok (volsize : Nat) :
    ∀ resid off idx,
      (zvol_cdev_read_loop (fun _ => none) volsize off resid idx).l_err = none := by
  intro resid
  induction resid using Nat.strong_induction_on with
  | _ resid ih =>
    intro off idx
    rw [zvol_cdev_read_loop_eq]
    by_cases h : 0 < resid ∧ off < volsize
    · rw [if_pos h]
      dsimp only
      have hpos : 0 < min resid (DMU_MAX_ACCESS >>> 1) := lt_min h.1 (by decide)
      refine ih _ ?_ _ _
      split_ifs <;> omega
    · rw [if_neg h]

theorem cdev_write_loop_all_ok (volsize : Nat) :
    ∀ resid off idx,
      (zvol_cdev_write_loop (fun _ => WStep.ok) volsize off resid idx).wl_err = none := by
  intro resid
  induction resid using Nat.strong_induction_on with
  | _ resid ih =>
    intro off idx
    rw [zvol_cdev_write_loop_eq]
    by_cases h : 0 < resid ∧ off < volsize
    · rw [if_pos h]
      dsimp only
      have hpos : 0 < min resid (DMU_MAX_ACCESS >>> 1) := lt_min h.1 (by decide)
      refine ih _ ?_ _ _
      split_ifs <;> omega
    · rw [if_neg h]

/-!
## Claim theorems
-/

/-- Claim C2: in the I/O engine (`zvol_strategy_impl`), every read or write
request with positive length and offset at or beyond the volume size fails
with the out-of-range error (`EIO` in the code, the spec's `OutOfRange`) and
transfers zero bytes — in particular a write at offset exactly equal to the
volume size with positive length.  The hypotheses only rule out the checks
the engine performs before bounds validation (volume not removing; a write
not already rejected as read-only). -/
theorem c2_oob_rejected (zv : ZvolState) (bp : BioReq) (oracle : Nat → Option Errno)
    (dtx ferr : Option Errno) (hrm : zv.zv_removing = false)
    (hcmd : bp.bio_cmd = BioCmd.bread ∨
      (bp.bio_cmd = BioCmd.bwrite ∧ zv.zv_rdonly = false))
    (hlen : bp.bio_length > 0) (hoff : bp.bio_offset ≥ zv.zv_volsize) :
    (zvol_strategy_impl (some zv) bp oracle dtx ferr).s_err = some Errno.eio ∧
    (zvol_strategy_impl (some zv) bp oracle dtx ferr).bio_completed = 0 ∧
    (zvol_strategy_impl (some zv) bp oracle dtx ferr).s_chunks = [] := by
  have hcd3 : bp.bio_cmd = BioCmd.bread ∨
      ((bp.bio_cmd = BioCmd.bwrite ∨ bp.bio_cmd = BioCmd.bdelete) ∧
        zv.zv_rdonly = false) := by
    rcases hcmd with h | ⟨h1, h2⟩
    · exact Or.inl h
    · exact Or.inr ⟨Or.inl h1, h2⟩
  rw [strategy_impl_oob zv bp oracle dtx ferr hrm hcd3 hlen hoff]
  exact ⟨rfl, rfl, rfl⟩

/-- Witness for C2: a write of 512 bytes at offset exactly the volume size
(4096) fails with `EIO`, transferring zero bytes. -/
theorem c2_oob_rejected_witness :
    (zvol_strategy_impl
        (some ⟨1, false, false, false, false, some 0, 4096, Volmode.geom, false⟩)
        ⟨BioCmd.bwrite, 4096, 512⟩ (fun _ => none) none none).s_err
      = some Errno.eio ∧
    (zvol_strategy_impl
        (some ⟨1, false, false, false, false, some 0, 4096, Volmode.geom, false⟩)
        ⟨BioCmd.bwrite, 4096, 512⟩ (fun _ => none) none none).bio_completed = 0 ∧
    (zvol_strategy_impl
        (some ⟨1, false, false, false, false, some 0, 4096, Volmode.geom, false⟩)
        ⟨BioCmd.bwrite, 4096, 512⟩ (fun _ => none) none none).s_chunks = [] :=
  c2_oob_rejected _ _ _ _ _ rfl (Or.inr ⟨rfl, rfl⟩) (by decide) (by decide)

/-- Claim C4: checksum-verification failures from the store are remapped to
the generic I/O error and never surfaced: (1) the strategy engine never
returns `ECKSUM` for a read or write; (2) neither does the cdev read path;
(3) nor the cdev write path, given the spec's store contract that writes
report only plain I/O errors (`write(...) -> Result<(), IoErr>`, no
`ChecksumErr`); (4) positively, a read chunk failing with `ECKSUM` surfaces
as `EIO`. -/
theorem c4_cksum_remap :
    (∀ (zv? : Option ZvolState) (bp : BioReq) (oracle : Nat → Option Errno)
        (dtx ferr : Option Errno),
        bp.bio_cmd = BioCmd.bread ∨ bp.bio_cmd = BioCmd.bwrite →
        (zvol_strategy_impl zv? bp oracle dtx ferr).s_err ≠ some Errno.ecksum) ∧
    (∀ (zv : ZvolState) (uio : Uio) (oracle : Nat → Option Errno),
        (zvol_cdev_read zv uio oracle).1 ≠ some Errno.ecksum) ∧
    (∀ (zv : ZvolState) (uio : Uio) (s : Bool) (oracle : Nat → WStep),
        (∀ i, oracle i ≠ WStep.assignFail Errno.ecksum ∧
              oracle i ≠ WStep.writeFail Errno.ecksum) →
        (zvol_cdev_write zv uio s oracle).1 ≠ some Errno.ecksum) ∧
    (∀ (zv : ZvolState) (uio : Uio) (oracle : Nat → Option Errno),
        0 < uio.uio_resid → uio.uio_offset = 0 → 0 < zv.zv_volsize →
        oracle 0 = some Errno.ecksum →
        (zvol_cdev_read zv uio oracle).1 = some Errno.eio) := by
  refine ⟨fun zv? bp oracle dtx ferr h =>
      strategy_err_ne_ecksum zv? bp oracle dtx ferr h, ?_, ?_, ?_⟩
  · intro zv uio oracle
    unfold zvol_cdev_read
    dsimp only
    split_ifs with h
    · simp
    · intro hq
      dsimp only at hq
      exact cdev_read_loop_err oracle zv.zv_volsize uio.uio_resid
        uio.uio_offset.toNat 0 Errno.ecksum hq rfl
  · intro zv uio s oracle hno
    unfold zvol_cdev_write
    dsimp only
    split_ifs with h
    · simp
    · intro hq
      dsimp only at hq
      exact cdev_write_loop_err oracle zv.zv_volsize hno uio.uio_resid
        uio.uio_offset.toNat 0 Errno.ecksum hq rfl
  · intro zv uio oracle hres hoff hvs ho
    unfold zvol_cdev_read
    dsimp only
    rw [if_neg (by rw [hoff]; intro hcon; rcases hcon.2 with h | h <;> omega)]
    have htn : uio.uio_offset.toNat = 0 := by rw [hoff]; rfl
    rw [htn, zvol_cdev_read_loop_eq, if_pos ⟨hres, hvs⟩]
    dsimp only
    rw [ho]
    simp [remap_cksum]

/-- Witness for C4: concrete instances of the four parts; in particular a
single-chunk cdev read whose store call fails with `ECKSUM` surfaces `EIO`. -/
theorem c4_cksum_remap_witness :
    (zvol_strategy_impl
        (some ⟨1, false, false, false, false, some 0, 4096, Volmode.geom, false⟩)
        ⟨BioCmd.bread, 0, 512⟩ (fun _ => some Errno.ecksum) none none).s_err
      ≠ some Errno.ecksum ∧
    (zvol_cdev_read ⟨1, false, false, false, false, some 0, 4096, Volmode.dev, false⟩
        ⟨0, 512⟩ (fun _ => some Errno.ecksum)).1 ≠ some Errno.ecksum ∧
    (zvol_cdev_write ⟨1, false, false, false, false, some 0, 4096, Volmode.dev, false⟩
        ⟨0, 512⟩ false (fun _ => WStep.assignFail Errno.eagain)).1
      ≠ some Errno.ecksum ∧
    (zvol_cdev_read ⟨1, false, false, false, false, some 0, 4096, Volmode.dev, false⟩
        ⟨0, 512⟩ (fun _ => some Errno.ecksum)).1 = some Errno.eio :=
  ⟨c4_cksum_remap.1 _ _ _ _ _ (Or.inl rfl),
   c4_cksum_remap.2.1 _ _ _,
   c4_cksum_remap.2.2.1 _ _ _ _ (fun _ => ⟨by decide, by decide⟩),
   c4_cksum_remap.2.2.2 _ _ _ (by decide) rfl (by decide) rfl⟩

/-- Claim C8: every chunk of every transfer is capped: the strategy path
cuts chunks at `zvol_maxphys`, the cdev read and write paths at
`DMU_MAX_ACCESS >> 1`, and the two caps are the same number
(`zvol_maxphys = DMU_MAX_ACCESS / 2`). -/
theorem c8_chunk_cap :
    (∀ (zv? : Option ZvolState) (bp : BioReq) (oracle : Nat → Option Errno)
        (dtx ferr : Option Errno) (c : ChunkRec),
        c ∈ (zvol_strategy_impl zv? bp oracle dtx ferr).s_chunks →
        c.c_size ≤ zvol_maxphys) ∧
    (∀ (zv : ZvolState) (uio : Uio) (oracle : Nat → Option Errno) (c : ChunkRec),
        c ∈ (zvol_cdev_read zv uio oracle).2.2 → c.c_size ≤ DMU_MAX_ACCESS >>> 1) ∧
    (∀ (zv : ZvolState) (uio : Uio) (s : Bool) (oracle : Nat → WStep) (c : WChunkRec),
        c ∈ (zvol_cdev_write zv uio s oracle).2.2.1 →
        c.w_bytes ≤ DMU_MAX_ACCESS >>> 1) ∧
    zvol_maxphys = DMU_MAX_ACCESS >>> 1 := by
  refine ⟨?_, ?_, ?_, by decide⟩
  · intro zv? bp oracle dtx ferr c hc
    rcases zv? with _ | zv
    · simp [zvol_strategy_impl] at hc
    · rcases strategy_chunks_cases zv bp oracle dtx ferr with h | h
      · rw [h] at hc; simp at hc
      · rw [h] at hc
        exact strategy_loop_cap oracle zv.zv_volsize _ _ _ c hc
  · intro zv uio oracle c hc
    unfold zvol_cdev_read at hc
    dsimp only at hc
    split_ifs at hc with h
    · simp at hc
    · exact cdev_read_loop_cap oracle zv.zv_volsize _ _ _ c hc
  · intro zv uio s oracle c hc
    unfold zvol_cdev_write at hc
    dsimp only at hc
    split_ifs at hc with h
    · simp at hc
    · exact cdev_write_loop_cap oracle zv.zv_volsize _ _ _ c hc

/-- Witness for C8: concrete transfers on each path produce chunks within the
cap. -/
theorem c8_chunk_cap_witness :
    ((⟨0, 512, true⟩ : ChunkRec) ∈ (zvol_strategy_impl
        (some ⟨1, false, false, false, false, some 0, 4096, Volmode.geom, false⟩)
        ⟨BioCmd.bwrite, 0, 512⟩ (fun _ => none) none none).s_chunks ∧
      (512 : Nat) ≤ zvol_maxphys) ∧
    ((⟨0, 512, true⟩ : ChunkRec) ∈ (zvol_cdev_read
        ⟨1, false, false, false, false, some 0, 4096, Volmode.dev, false⟩
        ⟨0, 512⟩ (fun _ => none)).2.2 ∧
      (512 : Nat) ≤ DMU_MAX_ACCESS >>> 1) ∧
    ((⟨0, 512, WOut.committed⟩ : WChunkRec) ∈ (zvol_cdev_write
        ⟨1, false, false, false, false, some 0, 4096, Volmode.dev, false⟩
        ⟨0, 512⟩ false (fun _ => WStep.ok)).2.2.1 ∧
      (512 : Nat) ≤ DMU_MAX_ACCESS >>> 1) ∧
    zvol_maxphys = DMU_MAX_ACCESS >>> 1 := by
  have h1 : (⟨0, 512, true⟩ : ChunkRec) ∈ (zvol_strategy_impl
      (some ⟨1, false, false, false, false, some 0, 4096, Volmode.geom, false⟩)
      ⟨BioCmd.bwrite, 0, 512⟩ (fun _ => none) none none).s_chunks := by
    decide
  have h2 : (⟨0, 512, true⟩ : ChunkRec) ∈ (zvol_cdev_read
      ⟨1, false, false, false, false, some 0, 4096, Volmode.dev, false⟩
      ⟨0, 512⟩ (fun _ => none)).2.2 := by
    decide
  have h3 : (⟨0, 512, WOut.committed⟩ : WChunkRec) ∈ (zvol_cdev_write
      ⟨1, false, false, false, false, some 0, 4096, Volmode.dev, false⟩
      ⟨0, 512⟩ false (fun _ => WStep.ok)).2.2.1 := by
    decide
  exact ⟨⟨h1, c8_chunk_cap.1 _ _ _ _ _ _ h1⟩,
    ⟨h2, c8_chunk_cap.2.1 _ _ _ _ h2⟩,
    ⟨h3, c8_chunk_cap.2.2.1 _ _ _ _ _ h3⟩,
    c8_chunk_cap.2.2.2⟩

/-- Claim C10: at the character-device interface a read or write with
positive residual and offset exactly equal to the volume size is accepted —
no error, the loop transfers zero bytes — and (with a store that reports no
errors) only a negative offset or an offset strictly greater than the volume
size is rejected with `EIO`; the strategy path by contrast rejects any
offset ≥ volsize outright. -/
theorem c10_cdev_eof_accepted :
    (∀ (zv : ZvolState) (uio : Uio) (oracle : Nat → Option Errno),
        0 < uio.uio_resid → uio.uio_offset = (zv.zv_volsize : Int) →
        zvol_cdev_read zv uio oracle = (none, 0, [])) ∧
    (∀ (zv : ZvolState) (uio : Uio) (s : Bool) (oracle : Nat → WStep),
        0 < uio.uio_resid → uio.uio_offset = (zv.zv_volsize : Int) →
        (zvol_cdev_write zv uio s oracle).1 = none ∧
        (zvol_cdev_write zv uio s oracle).2.1 = 0) ∧
    (∀ (zv : ZvolState) (uio : Uio),
        (zvol_cdev_read zv uio (fun _ => none)).1 = some Errno.eio ↔
          0 < uio.uio_resid ∧
            (uio.uio_offset < 0 ∨ uio.uio_offset > (zv.zv_volsize : Int))) ∧
    (∀ (zv : ZvolState) (bp : BioReq) (oracle : Nat → Option Errno)
        (dtx ferr : Option Errno),
        zv.zv_removing = false →
        (bp.bio_cmd = BioCmd.bread ∨
          (bp.bio_cmd = BioCmd.bwrite ∧ zv.zv_rdonly = false)) →
        bp.bio_length > 0 → bp.bio_offset ≥ zv.zv_volsize →
        (zvol_strategy_impl (some zv) bp oracle dtx ferr).s_err = some Errno.eio) := by
  refine ⟨?_, ?_, ?_, ?_⟩
  · intro zv uio oracle hres hoff
    unfold zvol_cdev_read
    dsimp only
    rw [if_neg (by rw [hoff]; intro hcon; rcases hcon.2 with hx | hx <;> omega)]
    have htn : uio.uio_offset.toNat = zv.zv_volsize := by omega
    rw [htn, zvol_cdev_read_loop_eq, if_neg (by intro hcon; omega)]
    simp
  · intro zv uio s oracle hres hoff
    unfold zvol_cdev_write
    dsimp only
    rw [if_neg (by rw [hoff]; intro hcon; rcases hcon.2 with hx | hx <;> omega)]
    have htn : uio.uio_offset.toNat = zv.zv_volsize := by omega
    rw [htn, zvol_cdev_write_loop_eq, if_neg (by intro hcon; omega)]
    simp
  · intro zv uio
    unfold zvol_cdev_read
    dsimp only
    split_ifs with h
    · simp [h]
    · simp only [cdev_read_loop_all_ok]
      simp [h]
  · intro zv bp oracle dtx ferr hrm hcmd hlen hoff
    have hcd3 : bp.bio_cmd = BioCmd.bread ∨
        ((bp.bio_cmd = BioCmd.bwrite ∨ bp.bio_cmd = BioCmd.bdelete) ∧
          zv.zv_rdonly = false) := by
      rcases hcmd with h | ⟨h1, h2⟩
      · exact Or.inl h
      · exact Or.inr ⟨Or.inl h1, h2⟩
    rw [strategy_impl_oob zv bp oracle dtx ferr hrm hcd3 hlen hoff]

/-- Witness for C10: on a 4096-byte volume, a 512-byte cdev read and a
512-byte cdev write at offset 4096 succeed with zero bytes; offset 4097 is
rejected with `EIO`; the strategy path rejects offset 4096. -/
theorem c10_cdev_eof_accepted_witness :
    zvol_cdev_read ⟨1, false, false, false, false, some 0, 4096, Volmode.dev, false⟩
        ⟨4096, 512⟩ (fun _ => none) = (none, 0, []) ∧
    ((zvol_cdev_write ⟨1, false, false, false, false, some 0, 4096, Volmode.dev, false⟩
        ⟨4096, 512⟩ false (fun _ => WStep.ok)).1 = none ∧
      (zvol_cdev_write ⟨1, false, false, false, false, some 0, 4096, Volmode.dev, false⟩
        ⟨4096, 512⟩ false (fun _ => WStep.ok)).2.1 = 0) ∧
    ((zvol_cdev_read ⟨1, false, false, false, false, some 0, 4096, Volmode.dev, false⟩
        ⟨4097, 512⟩ (fun _ => none)).1 = some Errno.eio ↔
      0 < (512 : Nat) ∧ ((4097 : Int) < 0 ∨ (4097 : Int) > ((4096 : Nat) : Int))) ∧
    (zvol_strategy_impl
        (some ⟨1, false, false, false, false, some 0, 4096, Volmode.geom, false⟩)
        ⟨BioCmd.bread, 4096, 512⟩ (fun _ => none) none none).s_err = some Errno.eio :=
  ⟨c10_cdev_eof_accepted.1 _ _ _ (by decide) (by decide),
   c10_cdev_eof_accepted.2.1 _ _ _ _ (by decide) (by decide),
   c10_cdev_eof_accepted.2.2.1 _ _,
   c10_cdev_eof_accepted.2.2.2 _ _ _ _ _ rfl (Or.inl rfl) (by decide) (by decide)⟩

/-- Claim C5: an unmap/delete whose span extends past the end-of-volume
boundary is not rejected as out of range: the strategy `BIO_DELETE` path and
the `DIOCGDELETE` ioctl both accept it and (per the spec's store contract)
the freed range is silently clipped at the boundary — the range freed is
`[off, volsize)` — whereas an out-of-range read/write is rejected outright
with `EIO`. -/
theorem c5_unmap_clips :
    (∀ (zv : ZvolState) (bp : BioReq) (oracle : Nat → Option Errno),
        zv.zv_removing = false → zv.zv_rdonly = false →
        bp.bio_cmd = BioCmd.bdelete →
        bp.bio_offset < zv.zv_volsize →
        zv.zv_volsize < bp.bio_offset + bp.bio_length →
        zvol_strategy_impl (some zv) bp oracle none none =
          ⟨none, bp.bio_length, [],
           some (bp.bio_offset, zv.zv_volsize - bp.bio_offset), false,
           zv.zv_sync_always⟩) ∧
    (∀ (zv : ZvolState) (offset length : Int),
        offset % (DEV_BSIZE : Int) = 0 → length % (DEV_BSIZE : Int) = 0 →
        0 ≤ offset → offset < (zv.zv_volsize : Int) → 0 < length →
        (zv.zv_volsize : Int) < offset + length →
        zvol_cdev_ioctl_delete zv true offset length none none =
          ⟨none, some (offset.toNat, zv.zv_volsize - offset.toNat),
           zv.zv_sync_always⟩) ∧
    (∀ (zv : ZvolState) (bp : BioReq) (oracle : Nat → Option Errno)
        (dtx ferr : Option Errno),
        zv.zv_removing = false →
        (bp.bio_cmd = BioCmd.bread ∨
          (bp.bio_cmd = BioCmd.bwrite ∧ zv.zv_rdonly = false)) →
        bp.bio_length > 0 → bp.bio_offset ≥ zv.zv_volsize →
        (zvol_strategy_impl (some zv) bp oracle dtx ferr).s_err = some Errno.eio ∧
        (zvol_strategy_impl (some zv) bp oracle dtx ferr).bio_completed = 0) := by
  refine ⟨?_, ?_, ?_⟩
  · intro zv bp oracle hrm hrd hcmd hofflt hstr
    rw [strategy_impl_delete_eq zv bp oracle none hrm hrd hcmd (by intro hcon; omega)]
    have hmin : min bp.bio_length (zv.zv_volsize - bp.bio_offset)
        = zv.zv_volsize - bp.bio_offset := by omega
    simp [dmu_free_long_range, hmin]
  · intro zv offset length ho4 hl4 hnn hlt hpos hstr
    unfold zvol_cdev_ioctl_delete
    rw [if_neg (by simp)]
    rw [if_neg (by
      intro hcon
      rcases hcon with hc | hc | hc | hc | hc
      · exact hc ho4
      · exact hc hl4
      · omega
      · omega
      · omega)]
    have hmin : min length.toNat (zv.zv_volsize - offset.toNat)
        = zv.zv_volsize - offset.toNat := by omega
    simp [dmu_free_long_range, hmin]
  · intro zv bp oracle dtx ferr hrm hcmd hlen hoff
    have hcd3 : bp.bio_cmd = BioCmd.bread ∨
        ((bp.bio_cmd = BioCmd.bwrite ∨ bp.bio_cmd = BioCmd.bdelete) ∧
          zv.zv_rdonly = false) := by
      rcases hcmd with h | ⟨h1, h2⟩
      · exact Or.inl h
      · exact Or.inr ⟨Or.inl h1, h2⟩
    rw [strategy_impl_oob zv bp oracle dtx ferr hrm hcd3 hlen hoff]
    exact ⟨rfl, rfl⟩

/-- Witness for C5: deleting [2048, 2048+4096) on a 4096-byte volume succeeds
on both paths and frees exactly [2048, 4096), while a read at offset 4096 is
rejected. -/
theorem c5_unmap_clips_witness :
    zvol_strategy_impl
        (some ⟨1, false, false, false, false, some 0, 4096, Volmode.geom, true⟩)
        ⟨BioCmd.bdelete, 2048, 4096⟩ (fun _ => none) none none =
      ⟨none, 4096, [], some (2048, 2048), false, true⟩ ∧
    zvol_cdev_ioctl_delete
        ⟨1, false, false, false, false, some 0, 4096, Volmode.dev, true⟩
        true 2048 4096 none none = ⟨none, some (2048, 2048), true⟩ ∧
    ((zvol_strategy_impl
        (some ⟨1, false, false, false, false, some 0, 4096, Volmode.geom, true⟩)
        ⟨BioCmd.bread, 4096, 512⟩ (fun _ => none) none none).s_err
        = some Errno.eio ∧
      (zvol_strategy_impl
        (some ⟨1, false, false, false, false, some 0, 4096, Volmode.geom, true⟩)
        ⟨BioCmd.bread, 4096, 512⟩ (fun _ => none) none none).bio_completed = 0) :=
  ⟨c5_unmap_clips.1 _ _ _ rfl rfl rfl (by decide) (by decide),
   c5_unmap_clips.2.1 _ _ _ (by decide) (by decide) (by decide) (by decide)
     (by decide) (by decide),
   c5_unmap_clips.2.2 _ _ _ _ _ rfl (Or.inl rfl) (by decide) (by decide)⟩

/-- Claim C3: when a mid-stream chunk of a strategy write fails, the loop
stops at that chunk: the chunk trace is a committed prefix followed by the
single failed (aborted-tx) chunk, the reported `bio_completed` is exactly the
bytes of the committed chunks (strictly less than the requested length), the
error is reported alongside, and no other transaction is aborted — never a
full-or-nothing outcome. -/
theorem c3_partial_write (zv : ZvolState) (bp : BioReq) (oracle : Nat → Option Errno)
    (dtx ferr : Option Errno) (hrm : zv.zv_removing = false)
    (hrd : zv.zv_rdonly = false) (hcmd : bp.bio_cmd = BioCmd.bwrite)
    (hfail : ∃ c ∈ (zvol_strategy_impl (some zv) bp oracle dtx ferr).s_chunks,
      c.c_ok = false) :
    ∃ e pre lastc,
      (zvol_strategy_impl (some zv) bp oracle dtx ferr).s_err = some e ∧
      (zvol_strategy_impl (some zv) bp oracle dtx ferr).s_chunks = pre ++ [lastc] ∧
      (∀ c ∈ pre, c.c_ok = true) ∧ lastc.c_ok = false ∧
      (zvol_strategy_impl (some zv) bp oracle dtx ferr).bio_completed
        = sumCommitted (zvol_strategy_impl (some zv) bp oracle dtx ferr).s_chunks ∧
      (zvol_strategy_impl (some zv) bp oracle dtx ferr).bio_completed
        < bp.bio_length ∧
      (zvol_strategy_impl (some zv) bp oracle dtx ferr).s_delete_tx_aborted = false := by
  by_cases hb : bp.bio_length > 0 ∧ bp.bio_offset ≥ zv.zv_volsize
  · exfalso
    have hcd3 : bp.bio_cmd = BioCmd.bread ∨
        ((bp.bio_cmd = BioCmd.bwrite ∨ bp.bio_cmd = BioCmd.bdelete) ∧
          zv.zv_rdonly = false) := Or.inr ⟨Or.inl hcmd, hrd⟩
    rw [strategy_impl_oob zv bp oracle dtx ferr hrm hcd3 hb.1 hb.2] at hfail
    simp at hfail
  · rw [strategy_impl_rw_eq zv bp oracle dtx ferr hrm (Or.inr ⟨hcmd, hrd⟩) hb] at hfail ⊢
    dsimp only at hfail ⊢
    obtain ⟨e, herr⟩ := strategy_loop_fail_err oracle zv.zv_volsize bp.bio_length
      bp.bio_offset 0 hfail
    obtain ⟨hne, hoffv, hres, pre, lastc, hchunks, hpre, hlast⟩ :=
      strategy_loop_err_some oracle zv.zv_volsize bp.bio_length bp.bio_offset 0 e herr
    obtain ⟨hsum_le, hresid, hoffe⟩ :=
      strategy_loop_acct oracle zv.zv_volsize bp.bio_length bp.bio_offset 0
    refine ⟨e, pre, lastc, ?_, hchunks, hpre, hlast, ?_, ?_, rfl⟩
    · rw [if_neg (by intro hcon; omega)]
      exact herr
    · omega
    · omega

/-- Witness for C3: a 1024-byte write whose first transaction fails to assign
(`EAGAIN`) reports the error, zero bytes completed, and exactly one
aborted-tx chunk. -/
theorem c3_partial_write_witness :
    (∃ c ∈ (zvol_strategy_impl
        (some ⟨1, false, false, false, false, some 0, 4096, Volmode.geom, false⟩)
        ⟨BioCmd.bwrite, 0, 1024⟩ (fun _ => some Errno.eagain) none none).s_chunks,
      c.c_ok = false) ∧
    (∃ e pre lastc,
      (zvol_strategy_impl
        (some ⟨1, false, false, false, false, some 0, 4096, Volmode.geom, false⟩)
        ⟨BioCmd.bwrite, 0, 1024⟩ (fun _ => some Errno.eagain) none none).s_err
        = some e ∧
      (zvol_strategy_impl
        (some ⟨1, false, false, false, false, some 0, 4096, Volmode.geom, false⟩)
        ⟨BioCmd.bwrite, 0, 1024⟩ (fun _ => some Errno.eagain) none none).s_chunks
        = pre ++ [lastc] ∧
      (∀ c ∈ pre, c.c_ok = true) ∧ lastc.c_ok = false ∧
      (zvol_strategy_impl
        (some ⟨1, false, false, false, false, some 0, 4096, Volmode.geom, false⟩)
        ⟨BioCmd.bwrite, 0, 1024⟩ (fun _ => some Errno.eagain) none none).bio_completed
        = sumCommitted (zvol_strategy_impl
        (some ⟨1, false, false, false, false, some 0, 4096, Volmode.geom, false⟩)
        ⟨BioCmd.bwrite, 0, 1024⟩ (fun _ => some Errno.eagain) none none).s_chunks ∧
      (zvol_strategy_impl
        (some ⟨1, false, false, false, false, some 0, 4096, Volmode.geom, false⟩)
        ⟨BioCmd.bwrite, 0, 1024⟩ (fun _ => some Errno.eagain) none none).bio_completed
        < 1024 ∧
      (zvol_strategy_impl
        (some ⟨1, false, false, false, false, some 0, 4096, Volmode.geom, false⟩)
        ⟨BioCmd.bwrite, 0, 1024⟩
        (fun _ => some Errno.eagain) none none).s_delete_tx_aborted = false) :=
  ⟨by decide,
   c3_partial_write _ _ _ _ _ rfl rfl rfl (by decide)⟩

theorem validTrace_take (tr : List ZEvent) :
    ∀ (zv : ZvolState) (n : Nat), validTrace zv tr = true →
      validTrace zv (List.take n tr) = true := by
  induction tr with
  | nil => intro zv n hv; simp [List.take_nil, validTrace]
  | cons e tr ih =>
    intro zv n hv
    cases n with
    | zero => simp [validTrace]
    | succ m =>
      simp only [List.take_succ_cons, validTrace, Bool.and_eq_true] at hv ⊢
      exact ⟨hv.1, ih (stepEv zv e) m hv.2⟩

/-- Claim C1 counterexample: with the exclusive flag held by a read-only
`O_EXCL` opener of a read-only volume, a second open requesting write access
fails with `EROFS`, not `EBUSY` — the read-only check precedes the
exclusivity check — refuting "while the exclusive flag is set every other
open attempt (exclusive or not) fails with Busy". -/
theorem c1_counterexample :
    (zvol_cdev_open (some (initState Volmode.dev true 4096 false)) ⟨false, true⟩
        (Except.ok 7)).2 = none ∧
    ((zvol_cdev_open (some (initState Volmode.dev true 4096 false)) ⟨false, true⟩
        (Except.ok 7)).1.getD (initState Volmode.dev true 4096 false)).zv_excl
      = true ∧
    (zvol_cdev_open
        (zvol_cdev_open (some (initState Volmode.dev true 4096 false)) ⟨false, true⟩
          (Except.ok 7)).1 ⟨true, false⟩ (Except.ok 8)).2 = some Errno.erofs ∧
    some Errno.erofs ≠ some Errno.ebusy := by
  decide

/-- Claim C1 (amended): (1) an exclusive cdev open fails with `Busy` when the
open count is non-zero, provided it passes the earlier dying and read-only
checks, and leaves the state unchanged; (2)/(3) while the exclusive flag is
set, any open attempt passing those earlier checks fails with `Busy` on the
cdev and the GEOM path; (4) on every valid trace from a fresh volume the
exclusive flag set implies open count == 1. -/
theorem c1_exclusive_amended :
    (∀ (zv : ZvolState) (flags : OpenFlags) (fo : Except Errno Nat),
        zv.zso_dying = false → ¬(flags.fwrite = true ∧ zv.zv_rdonly = true) →
        flags.o_excl = true → zv.zv_open_count ≠ 0 →
        (zvol_cdev_open (some zv) flags fo).2 = some Errno.ebusy ∧
        (zvol_cdev_open (some zv) flags fo).1 = some zv) ∧
    (∀ (zv : ZvolState) (flags : OpenFlags) (fo : Except Errno Nat),
        zv.zso_dying = false → ¬(flags.fwrite = true ∧ zv.zv_rdonly = true) →
        zv.zv_excl = true → zv.zv_open_count ≠ 0 →
        (zvol_cdev_open (some zv) flags fo).2 = some Errno.ebusy ∧
        (zvol_cdev_open (some zv) flags fo).1 = some zv) ∧
    (∀ (zv : ZvolState) (flag : OpenFlags) (count : Nat) (fo : Except Errno Nat)
        (incompat : Bool),
        zv.zso_dying = false → zv.zv_removing = false →
        ¬(flag.fwrite = true ∧ (zv.zv_rdonly = true ∨ incompat = true)) →
        zv.zv_excl = true → zv.zv_open_count ≠ 0 →
        (zvol_geom_open (some zv) flag count fo incompat).2 = some Errno.ebusy ∧
        (zvol_geom_open (some zv) flag count fo incompat).1 = some zv) ∧
    (∀ (mode : Volmode) (rd : Bool) (vs : Nat) (sa : Bool) (tr : List ZEvent),
        validTrace (initState mode rd vs sa) tr = true →
        (runTrace (initState mode rd vs sa) tr).zv_excl = true →
        (runTrace (initState mode rd vs sa) tr).zv_open_count = 1) := by
  refine ⟨?_, ?_, ?_, ?_⟩
  · intro zv flags fo hd hw hx hc
    have hwb : (flags.fwrite && zv.zv_rdonly) = false := by
      cases hf : flags.fwrite <;> cases hr : zv.zv_rdonly <;> simp_all
    have heq : zvol_cdev_open (some zv) flags fo = (some zv, some Errno.ebusy) := by
      unfold zvol_cdev_open
      dsimp only
      rw [if_neg (by simp [hd])]
      rw [if_neg hc]
      dsimp only
      unfold zvol_open_checks zvol_open_out
      rw [hwb]
      by_cases he : zv.zv_excl = true
      · simp [he, hc]
      · simp [he, hx, hc]
    rw [heq]
    exact ⟨rfl, rfl⟩
  · intro zv flags fo hd hw hx hc
    have hwb : (flags.fwrite && zv.zv_rdonly) = false := by
      cases hf : flags.fwrite <;> cases hr : zv.zv_rdonly <;> simp_all
    have heq : zvol_cdev_open (some zv) flags fo = (some zv, some Errno.ebusy) := by
      unfold zvol_cdev_open
      dsimp only
      rw [if_neg (by simp [hd])]
      rw [if_neg hc]
      dsimp only
      unfold zvol_open_checks zvol_open_out
      rw [hwb]
      simp [hx, hc]
    rw [heq]
    exact ⟨rfl, rfl⟩
  · intro zv flag count fo incompat hd hrm hw hx hc
    have hwb : (flag.fwrite && (zv.zv_rdonly || incompat)) = false := by
      cases hf : flag.fwrite <;> cases hr : zv.zv_rdonly <;>
        cases hi : incompat <;> simp_all
    have heq : zvol_geom_open (some zv) flag count fo incompat
        = (some zv, some Errno.ebusy) := by
      unfold zvol_geom_open
      dsimp only
      rw [if_neg (by simp [hd, hrm])]
      rw [if_neg hc]
      dsimp only
      unfold zvol_open_checks zvol_open_out
      rw [hwb]
      simp [hx, hc]
    rw [heq]
    exact ⟨rfl, rfl⟩
  · intro mode rd vs sa tr hv hx
    exact (goodInv_run (initState mode rd vs sa) tr (goodInv_init mode rd vs sa) hv).2.1 hx

/-- Witness for C1 (amended): concrete instances of the four parts; the trace
instance takes an exclusive open on a fresh volume and observes count 1. -/
theorem c1_exclusive_amended_witness :
    ((zvol_cdev_open (some ⟨2, false, false, false, false, some 3, 4096,
        Volmode.dev, false⟩) ⟨false, true⟩ (Except.ok 9)).2 = some Errno.ebusy ∧
      (zvol_cdev_open (some ⟨2, false, false, false, false, some 3, 4096,
        Volmode.dev, false⟩) ⟨false, true⟩ (Except.ok 9)).1
        = some ⟨2, false, false, false, false, some 3, 4096, Volmode.dev, false⟩) ∧
    ((zvol_cdev_open (some ⟨1, true, false, false, false, some 3, 4096,
        Volmode.dev, false⟩) ⟨false, false⟩ (Except.ok 9)).2 = some Errno.ebusy ∧
      (zvol_cdev_open (some ⟨1, true, false, false, false, some 3, 4096,
        Volmode.dev, false⟩) ⟨false, false⟩ (Except.ok 9)).1
        = some ⟨1, true, false, false, false, some 3, 4096, Volmode.dev, false⟩) ∧
    ((zvol_geom_open (some ⟨1, true, false, false, false, some 3, 4096,
        Volmode.geom, false⟩) ⟨false, false⟩ 1 (Except.ok 9) false).2
        = some Errno.ebusy ∧
      (zvol_geom_open (some ⟨1, true, false, false, false, some 3, 4096,
        Volmode.geom, false⟩) ⟨false, false⟩ 1 (Except.ok 9) false).1
        = some ⟨1, true, false, false, false, some 3, 4096, Volmode.geom, false⟩) ∧
    (runTrace (initState Volmode.dev false 4096 false)
        [ZEvent.copen ⟨false, true⟩ (Except.ok 5)]).zv_open_count = 1 :=
  ⟨c1_exclusive_amended.1 _ _ _ rfl (by decide) rfl (by decide),
   c1_exclusive_amended.2.1 _ _ _ rfl (by decide) rfl (by decide),
   c1_exclusive_amended.2.2.1 _ _ _ _ _ rfl rfl (by decide) rfl (by decide),
   c1_exclusive_amended.2.2.2 Volmode.dev false 4096 false
     [ZEvent.copen ⟨false, true⟩ (Except.ok 5)] (by decide) (by decide)⟩

/-- Claim C6: with closes matched to opens (the kernel contract the driver
ASSERTs), the open count is non-negative at every prefix of every trace; a
close takes the count from `n` to `n - count`, never below zero; and when
the total opened equals the total closed over a trace from a fresh volume,
the final open count is zero. -/
theorem c6_open_count_nonneg :
    (∀ (mode : Volmode) (rd : Bool) (vs : Nat) (sa : Bool) (tr : List ZEvent)
        (n : Nat),
        validTrace (initState mode rd vs sa) tr = true →
        0 ≤ (runTrace (initState mode rd vs sa) (List.take n tr)).zv_open_count) ∧
    (∀ (zv : ZvolState) (c : Nat),
        0 ≤ zv.zv_open_count → (c : Int) ≤ zv.zv_open_count →
        (stepEv zv (ZEvent.gclose c)).zv_open_count = zv.zv_open_count - c ∧
        0 ≤ (stepEv zv (ZEvent.gclose c)).zv_open_count) ∧
    (∀ (zv : ZvolState), 1 ≤ zv.zv_open_count →
        (stepEv zv ZEvent.cclose).zv_open_count = zv.zv_open_count - 1 ∧
        0 ≤ (stepEv zv ZEvent.cclose).zv_open_count) ∧
    (∀ (mode : Volmode) (rd : Bool) (vs : Nat) (sa : Bool) (tr : List ZEvent),
        totalOpened (initState mode rd vs sa) tr
          = totalClosed (initState mode rd vs sa) tr →
        (runTrace (initState mode rd vs sa) tr).zv_open_count = 0) := by
  refine ⟨?_, ?_, ?_, ?_⟩
  · intro mode rd vs sa tr n hv
    exact (goodInv_run (initState mode rd vs sa) (List.take n tr)
      (goodInv_init mode rd vs sa) (validTrace_take tr _ n hv)).1
  · intro zv c h0 hle
    rw [geom_close_count]
    exact ⟨rfl, by omega⟩
  · intro zv hle
    rw [cdev_close_count]
    exact ⟨rfl, by omega⟩
  · intro mode rd vs sa tr heq
    rw [runTrace_count, heq]
    simp [initState]

/-- Witness for C6: an open/close pair nets the count back to zero, every
prefix staying non-negative. -/
theorem c6_open_count_nonneg_witness :
    0 ≤ (runTrace (initState Volmode.dev false 4096 false)
        (List.take 1 [ZEvent.copen ⟨false, false⟩ (Except.ok 4),
          ZEvent.cclose])).zv_open_count ∧
    ((stepEv ⟨2, false, false, false, false, some 3, 4096, Volmode.geom, false⟩
        (ZEvent.gclose 1)).zv_open_count = 2 - 1 ∧
      0 ≤ (stepEv ⟨2, false, false, false, false, some 3, 4096, Volmode.geom, false⟩
        (ZEvent.gclose 1)).zv_open_count) ∧
    ((stepEv ⟨1, false, false, false, false, some 3, 4096, Volmode.dev, false⟩
        ZEvent.cclose).zv_open_count = 1 - 1 ∧
      0 ≤ (stepEv ⟨1, false, false, false, false, some 3, 4096, Volmode.dev, false⟩
        ZEvent.cclose).zv_open_count) ∧
    (runTrace (initState Volmode.dev false 4096 false)
        [ZEvent.copen ⟨false, false⟩ (Except.ok 4), ZEvent.cclose]).zv_open_count
      = 0 :=
  ⟨c6_open_count_nonneg.1 Volmode.dev false 4096 false
     [ZEvent.copen ⟨false, false⟩ (Except.ok 4), ZEvent.cclose] 1 (by decide),
   c6_open_count_nonneg.2.1 _ 1 (by decide) (by decide),
   c6_open_count_nonneg.2.2.1 _ (by decide),
   c6_open_count_nonneg.2.2.2 Volmode.dev false 4096 false
     [ZEvent.copen ⟨false, false⟩ (Except.ok 4), ZEvent.cclose] (by decide)⟩

/-- Claim C7: on every valid trace from a fresh volume, open-count > 0
implies the object-store handle is non-null and open-count == 0 implies it
is null; and an open whose post-setup check fails while the count is still
zero (a write open of a read-only volume whose first-open setup succeeded)
runs last-close teardown, releasing the handle acquired during setup. -/
theorem c7_objset_invariant :
    (∀ (mode : Volmode) (rd : Bool) (vs : Nat) (sa : Bool) (tr : List ZEvent),
        validTrace (initState mode rd vs sa) tr = true →
        (0 < (runTrace (initState mode rd vs sa) tr).zv_open_count →
          (runTrace (initState mode rd vs sa) tr).zv_objset.isSome = true) ∧
        ((runTrace (initState mode rd vs sa) tr).zv_open_count = 0 →
          (runTrace (initState mode rd vs sa) tr).zv_objset = none)) ∧
    (∀ (zv : ZvolState) (flags : OpenFlags) (hdl : Nat),
        zv.zso_dying = false → zv.zv_open_count = 0 →
        flags.fwrite = true → zv.zv_rdonly = true →
        (zvol_cdev_open (some zv) flags (Except.ok hdl)).2 = some Errno.erofs ∧
        ∃ zv2, (zvol_cdev_open (some zv) flags (Except.ok hdl)).1 = some zv2 ∧
          zv2.zv_objset = none ∧ zv2.zv_open_count = 0) := by
  constructor
  · intro mode rd vs sa tr hv
    have hg := goodInv_run (initState mode rd vs sa) tr
      (goodInv_init mode rd vs sa) hv
    exact ⟨hg.2.2.1, hg.2.2.2⟩
  · intro zv flags hdl hd hc0 hf hr
    obtain ⟨cnt, ex, rd, rm, dy, os, vs, vm, sa⟩ := zv
    simp only at hd hc0 hr
    subst hd hr
    have hcnt : cnt = 0 := hc0
    subst hcnt
    have heq : zvol_cdev_open
        (some ⟨0, ex, true, rm, false, os, vs, vm, sa⟩) flags (Except.ok hdl)
        = (some ⟨0, ex, true, rm, false, none, vs, vm, sa⟩, some Errno.erofs) := by
      unfold zvol_cdev_open
      dsimp only
      rw [if_neg (show ¬(false = true) by simp)]
      rw [if_pos (show (0 : Int) = 0 from rfl)]
      simp only [zvol_first_open]
      unfold zvol_open_checks zvol_open_out zvol_last_close
      simp [hf]
    rw [heq]
    exact ⟨rfl, ⟨0, ex, true, rm, false, none, vs, vm, sa⟩, rfl, rfl, rfl⟩

/-- Witness for C7: a 2-event trace satisfies the handle invariant, and a
failed write-open of a read-only volume ends with a null handle. -/
theorem c7_objset_invariant_witness :
    ((0 < (runTrace (initState Volmode.dev false 4096 false)
        [ZEvent.copen ⟨false, false⟩ (Except.ok 4)]).zv_open_count →
      (runTrace (initState Volmode.dev false 4096 false)
        [ZEvent.copen ⟨false, false⟩ (Except.ok 4)]).zv_objset.isSome = true) ∧
     ((runTrace (initState Volmode.dev false 4096 false)
        [ZEvent.copen ⟨false, false⟩ (Except.ok 4)]).zv_open_count = 0 →
      (runTrace (initState Volmode.dev false 4096 false)
        [ZEvent.copen ⟨false, false⟩ (Except.ok 4)]).zv_objset = none)) ∧
    ((zvol_cdev_open (some ⟨0, false, true, false, false, none, 4096,
        Volmode.dev, false⟩) ⟨true, false⟩ (Except.ok 5)).2 = some Errno.erofs ∧
      ∃ zv2, (zvol_cdev_open (some ⟨0, false, true, false, false, none, 4096,
        Volmode.dev, false⟩) ⟨true, false⟩ (Except.ok 5)).1 = some zv2 ∧
        zv2.zv_objset = none ∧ zv2.zv_open_count = 0) :=
  ⟨c7_objset_invariant.1 Volmode.dev false 4096 false
     [ZEvent.copen ⟨false, false⟩ (Except.ok 4)] (by decide),
   c7_objset_invariant.2 _ _ 5 rfl rfl rfl rfl⟩

/-- Claim C9 counterexample: for a volume in character-device mode
(`volmode=dev`) with an opener, `zvol_wait_close` returns immediately —
`zso_dying` stays false and no wait happens — so the claim's "for every
volume removal request ... sets the volume's dying flag" fails. -/
theorem c9_counterexample :
    (zvol_wait_close ⟨1, false, false, false, false, some 0, 4096,
        Volmode.dev, false⟩ 1000).1.zso_dying = false ∧
    (zvol_wait_close ⟨1, false, false, false, false, some 0, 4096,
        Volmode.dev, false⟩ 1000).2 = none := by
  decide

/-- Claim C9 (amended): for a GEOM-mode volume, `zvol_wait_close` sets the
dying flag and waits at most once, with the bounded timeout `10*hz` (no wait
at all when the open count is already zero), and returns regardless of the
open count — teardown proceeds unconditionally, never blocked indefinitely.
For non-GEOM volume modes it returns immediately without touching the
state. -/
theorem c9_wait_close_amended :
    (∀ (zv : ZvolState) (hz : Nat), zv.zv_volmode = Volmode.geom →
        (zvol_wait_close zv hz).1.zso_dying = true ∧
        (∀ t, (zvol_wait_close zv hz).2 = some t → t = 10 * hz) ∧
        (zv.zv_open_count = 0 → (zvol_wait_close zv hz).2 = none) ∧
        (zvol_wait_close zv hz).1.zv_open_count = zv.zv_open_count) ∧
    (∀ (zv : ZvolState) (hz : Nat), zv.zv_volmode ≠ Volmode.geom →
        zvol_wait_close zv hz = (zv, none)) := by
  constructor
  · intro zv hz hg
    unfold zvol_wait_close
    rw [if_neg (by simp [hg])]
    dsimp only
    split_ifs with hc
    · exact ⟨rfl, fun t ht => by injection ht with h; exact h.symm,
        fun h0 => absurd h0 hc, rfl⟩
    · exact ⟨rfl, fun t ht => by simp at ht, fun _ => rfl, rfl⟩
  · intro zv hz hg
    unfold zvol_wait_close
    rw [if_pos hg]

/-- Witness for C9 (amended): a GEOM volume with one opener gets its dying
flag set and a single sleep of exactly 10*hz; a dev-mode volume is returned
untouched. -/
theorem c9_wait_close_amended_witness :
    ((zvol_wait_close ⟨1, false, false, false, false, some 0, 4096,
        Volmode.geom, false⟩ 1000).1.zso_dying = true ∧
      (∀ t, (zvol_wait_close ⟨1, false, false, false, false, some 0, 4096,
        Volmode.geom, false⟩ 1000).2 = some t → t = 10 * 1000) ∧
      ((⟨1, false, false, false, false, some 0, 4096, Volmode.geom, false⟩
          : ZvolState).zv_open_count = 0 →
        (zvol_wait_close ⟨1, false, false, false, false, some 0, 4096,
          Volmode.geom, false⟩ 1000).2 = none) ∧
      (zvol_wait_close ⟨1, false, false, false, false, some 0, 4096,
        Volmode.geom, false⟩ 1000).1.zv_open_count = 1) ∧
    zvol_wait_close ⟨1, false, false, false, false, some 0, 4096,
        Volmode.dev, false⟩ 1000
      = (⟨1, false, false, false, false, some 0, 4096, Volmode.dev, false⟩, none) :=
  ⟨c9_wait_close_amended.1 _ 1000 rfl,
   c9_wait_close_amended.2 _ 1000 (by decide)⟩

end ZvolOs
